import Mathlib

/-!
bitcoin-lib: transaction codec, key-material record and blob utility

A shallow embedding of `src/transaction/transaction.go`, `src/pubkey/pubkey.go`
and `src/blob/baseblob.go`.

Conventions of the embedding.

* A byte is a `Fin 256`. Machine integers are `Nat`/`Int`, reduced explicitly
  where the Go code converts or wraps.
* An `io.Writer` is the contents of a `bytes.Buffer`: writing appends and never
  fails. A pack function takes the buffer and returns the error (if any) together
  with the buffer after the call.
* An `io.Reader` is the unread part of a `bytes.Buffer`. An unpack function with a
  pointer receiver takes the receiver and the reader and returns the receiver
  after the call, the error (if any) and the reader after the call: what the Go
  code has assigned before an error stays assigned.
* A run-time panic is the outcome `Err.panic`.
* The packages `serialize`, `script`, `bigint` and `utility` are not part of the
  sources at hand; what the embedded functions need from them is modelled from
  the specification and marked as such.
-/

set_option maxRecDepth 8000

namespace BitcoinLib

/-! ## Streams -/

abbrev Byte := Fin 256

/-- Outcomes other than success. `shortRead` stands for `io.EOF` and
`io.ErrUnexpectedEOF`; `panic` for a run-time panic, which returns nothing. -/
inductive Err where
  | shortRead
  | unknownOption
  | invalidHex
  | invalidSize
  | panic
  deriving DecidableEq, Repr

abbrev Writer := List Byte

abbrev Reader := List Byte

/-- The method `Write` of `bytes.Buffer`: appends, never fails. -/
def Write (w : Writer) (p : List Byte) : Option Err × Writer :=
  (none, w ++ p)

/-- The method `Read` of `bytes.Buffer` on a destination slice holding `p`: copies
`min (len p) (unread)` bytes over the front of `p`; the error is `io.EOF` only when
nothing is unread and `p` is not empty. Returns the slice, the count, the error
and the reader. -/
def Read (r : Reader) (p : List Byte) : List Byte × Nat × Option Err × Reader :=
  match r with
  | [] => if p.length = 0 then (p, 0, none, []) else (p, 0, some Err.shortRead, [])
  | _ :: _ =>
    let n := min p.length r.length
    (r.take n ++ p.drop n, n, none, r.drop n)

/-- Reading exactly `n` bytes (`io.ReadFull`): a short-read error when fewer are
unread, draining the reader. -/
def ReadFull (r : Reader) (n : Nat) : List Byte × Option Err × Reader :=
  if r.length < n then ([], some Err.shortRead, []) else (r.take n, none, r.drop n)

/-- The `k` low bytes of `n`, least significant first. -/
def leBytes : Nat → Nat → List Byte
  | 0, _ => []
  | k + 1, n => ⟨n % 256, Nat.mod_lt _ (by decide)⟩ :: leBytes k (n / 256)

/-- The value of a little-endian byte string. -/
def leValue : List Byte → Nat
  | [] => 0
  | b :: bs => b.val + 256 * leValue bs

/-- Reinterpretation of an unsigned `bits`-bit value as two's complement. -/
def toSigned (bits : Nat) (u : Nat) : Int :=
  if u < 2 ^ (bits - 1) then (u : Int) else (u : Int) - 2 ^ bits

/-! ## Package `serialize` (modelled from the specification, section 4.1) -/

/-- Modelled from the spec: `serialize.PackUint8`, absent from the sources; a
fixed-width integer is encoded little-endian, fixed size. -/
def PackUint8 (w : Writer) (v : Nat) : Option Err × Writer :=
  Write w (leBytes 1 v)

/-- Modelled from the spec: `serialize.PackUint32`, absent from the sources. -/
def PackUint32 (w : Writer) (v : Nat) : Option Err × Writer :=
  Write w (leBytes 4 v)

/-- Modelled from the spec: `serialize.PackInt32`, absent from the sources; the
signed value is written in two's complement. -/
def PackInt32 (w : Writer) (v : Int) : Option Err × Writer :=
  Write w (leBytes 4 (v % 2 ^ 32).toNat)

/-- Modelled from the spec: `serialize.PackInt64`, absent from the sources. -/
def PackInt64 (w : Writer) (v : Int) : Option Err × Writer :=
  Write w (leBytes 8 (v % 2 ^ 64).toNat)

/-- The compact-size encoding of section 4.1: one byte below `0xfd`, else `0xfd`
and 16 bits, else `0xfe` and 32 bits, else `0xff` and 64 bits. -/
def compactSizeBytes (n : Nat) : List Byte :=
  if n < 0xfd then leBytes 1 n
  else if n ≤ 0xffff then 0xfd :: leBytes 2 n
  else if n ≤ 0xffffffff then 0xfe :: leBytes 4 n
  else 0xff :: leBytes 8 n

/-- Modelled from the spec: `serialize.PackCompactSize`, absent from the sources. -/
def PackCompactSize (w : Writer) (n : Nat) : Option Err × Writer :=
  Write w (compactSizeBytes n)

/-- Reads a little-endian unsigned integer of `k` bytes; on a short read the
value returned with the error is zero. -/
def readLE (r : Reader) (k : Nat) : Nat × Option Err × Reader :=
  match ReadFull r k with
  | (_, some err, r) => (0, some err, r)
  | (bs, none, r) => (leValue bs, none, r)

/-- Modelled from the spec: `serialize.UnPackUint8`, absent from the sources;
decode fails with a short-read error when the input has too few bytes. -/
def UnPackUint8 (r : Reader) : Nat × Option Err × Reader :=
  readLE r 1

/-- Modelled from the spec: `serialize.UnPackUint32`, absent from the sources. -/
def UnPackUint32 (r : Reader) : Nat × Option Err × Reader :=
  readLE r 4

/-- Modelled from the spec: `serialize.UnPackInt32`, absent from the sources. -/
def UnPackInt32 (r : Reader) : Int × Option Err × Reader :=
  match readLE r 4 with
  | (_, some err, r) => (0, some err, r)
  | (u, none, r) => (toSigned 32 u, none, r)

/-- Modelled from the spec: `serialize.UnPackInt64`, absent from the sources. -/
def UnPackInt64 (r : Reader) : Int × Option Err × Reader :=
  match readLE r 8 with
  | (_, some err, r) => (0, some err, r)
  | (u, none, r) => (toSigned 64 u, none, r)

/-- Modelled from the spec: `serialize.UnPackCompactSize`, absent from the
sources; reads the discriminant byte, then the width it announces; no
canonicalization check. -/
def UnPackCompactSize (r : Reader) : Nat × Option Err × Reader :=
  match UnPackUint8 r with
  | (_, some err, r) => (0, some err, r)
  | (d, none, r) =>
    if d < 0xfd then (d, none, r)
    else if d = 0xfd then readLE r 2
    else if d = 0xfe then readLE r 4
    else readLE r 8

/-! ## Package `bigint`: the 256-bit hash value (modelled from the specification) -/

/-- Modelled from the spec: `bigint.Uint256`, absent from the sources; FixedHash256
is an opaque value of exactly 32 bytes. -/
abbrev Uint256 := { l : List Byte // l.length = 32 }

/-- The hash of 32 zero bytes, the value of a freshly declared record. -/
def Uint256.zero : Uint256 := ⟨List.replicate 32 0, by decide⟩

instance : Inhabited Uint256 := ⟨Uint256.zero⟩

/-- Modelled from the spec: `Uint256.Pack`, absent from the sources; packs as a
fixed 32-byte field. -/
def Uint256.Pack (h : Uint256) (w : Writer) : Option Err × Writer :=
  Write w h.val

/-- Modelled from the spec: `Uint256.UnPack`, absent from the sources; unpacks a
fixed 32-byte field, a short read being an error that leaves the receiver. -/
def Uint256.UnPack (h : Uint256) (r : Reader) : Uint256 × Option Err × Reader :=
  if hlen : 32 ≤ r.length then
    (⟨r.take 32, by rw [List.length_take]; omega⟩, none, r.drop 32)
  else (h, some Err.shortRead, [])

/-! ## Package `script` (modelled from the specification, section 3) -/

/-- Modelled from the spec: `script.Script`, absent from the sources; an opaque
byte program. -/
structure Script where
  data : List Byte
  deriving DecidableEq, Repr, Inhabited

/-- Modelled from the spec: `Script.GetScriptBytes`, absent from the sources. -/
def Script.GetScriptBytes (s : Script) : List Byte := s.data

/-- Modelled from the spec: `Script.Pack`, absent from the sources; a compact-size
length followed by that many raw bytes. -/
def Script.Pack (s : Script) (w : Writer) : Option Err × Writer :=
  match PackCompactSize w (s.data.length % 2 ^ 64) with
  | (some err, w) => (some err, w)
  | (none, w) => Write w s.data

/-- Modelled from the spec: `Script.UnPack`, absent from the sources; a short read
is an error and leaves the receiver. -/
def Script.UnPack (s : Script) (r : Reader) : Script × Option Err × Reader :=
  match UnPackCompactSize r with
  | (_, some err, r) => (s, some err, r)
  | (n, none, r) =>
    match ReadFull r n with
    | (_, some err, r) => (s, some err, r)
    | (bs, none, r) => (⟨bs⟩, none, r)

/-- Modelled from the spec: `script.ScriptWitness`, absent from the sources; an
ordered sequence of byte strings, empty by default. Go's nil slice and empty
slice, which `len` and `range` do not tell apart, are both the empty list. -/
structure ScriptWitness where
  stack : List (List Byte)
  deriving DecidableEq, Repr, Inhabited

/-- Modelled from the spec: `ScriptWitness.GetScriptWitnessBytes`, absent from the
sources. -/
def ScriptWitness.GetScriptWitnessBytes (s : ScriptWitness) : List (List Byte) :=
  s.stack

/-- One element of a witness stack: a compact-size-prefixed byte string. -/
def packWitnessItem (e : List Byte) (w : Writer) : Option Err × Writer :=
  match PackCompactSize w (e.length % 2 ^ 64) with
  | (some err, w) => (some err, w)
  | (none, w) => Write w e

/-- The elements of a witness stack, in order. -/
def packWitnessItems : List (List Byte) → Writer → Option Err × Writer
  | [], w => (none, w)
  | e :: es, w =>
    match packWitnessItem e w with
    | (some err, w) => (some err, w)
    | (none, w) => packWitnessItems es w

/-- Modelled from the spec: `ScriptWitness.Pack`, absent from the sources; a
compact-size count followed by each element as a compact-size-prefixed byte
string. -/
def ScriptWitness.Pack (s : ScriptWitness) (w : Writer) : Option Err × Writer :=
  match PackCompactSize w (s.stack.length % 2 ^ 64) with
  | (some err, w) => (some err, w)
  | (none, w) => packWitnessItems s.stack w

/-- Reads one compact-size-prefixed byte string. -/
def unpackWitnessItem (r : Reader) : List Byte × Option Err × Reader :=
  match UnPackCompactSize r with
  | (_, some err, r) => ([], some err, r)
  | (n, none, r) => ReadFull r n

/-- Reads `n` compact-size-prefixed byte strings. -/
def unpackWitnessItems : Nat → Reader → List (List Byte) × Option Err × Reader
  | 0, r => ([], none, r)
  | n + 1, r =>
    match unpackWitnessItem r with
    | (_, some err, r) => ([], some err, r)
    | (e, none, r) =>
      match unpackWitnessItems n r with
      | (_, some err, r) => ([], some err, r)
      | (es, none, r) => (e :: es, none, r)

/-- Modelled from the spec: `ScriptWitness.UnPack`, absent from the sources; a
short read is an error and leaves the receiver. -/
def ScriptWitness.UnPack (s : ScriptWitness) (r : Reader) :
    ScriptWitness × Option Err × Reader :=
  match UnPackCompactSize r with
  | (_, some err, r) => (s, some err, r)
  | (n, none, r) =>
    match unpackWitnessItems n r with
    | (_, some err, r) => (s, some err, r)
    | (es, none, r) => (⟨es⟩, none, r)

/-! ## Package `utility` (modelled from the specification) -/

/-- Modelled from the spec: `utility.NumberToHexChar`, absent from the sources; the
hex digit of a number below 16, in lower case as in the specification's hex texts. -/
def NumberToHexChar (n : Nat) : Char :=
  if n < 10 then Char.ofNat (48 + n) else Char.ofNat (87 + n)

/-- Modelled from the spec: `utility.HexCharToNumber`, absent from the sources; the
value of a hex digit of either case, `none` for any other character. -/
def HexCharToNumber (c : Char) : Option Nat :=
  if 48 ≤ c.toNat ∧ c.toNat ≤ 57 then some (c.toNat - 48)
  else if 97 ≤ c.toNat ∧ c.toNat ≤ 102 then some (c.toNat - 87)
  else if 65 ≤ c.toNat ∧ c.toNat ≤ 70 then some (c.toNat - 55)
  else none

/-- Removes an optional leading `0x`. -/
def dropHexMark : List Char → List Char
  | '0' :: 'x' :: cs => cs
  | cs => cs

/-- Modelled from the spec: `utility.IsValidHex`, absent from the sources; hex text
is malformed when, after an optional `0x` is stripped, it holds a non-hex
character or an odd number of characters. -/
def IsValidHex (hexStr : List Char) : Bool :=
  (dropHexMark hexStr).all (fun c => (HexCharToNumber c).isSome) &&
    (dropHexMark hexStr).length % 2 == 0

/-! ## `src/blob/baseblob.go` -/

structure Baseblob where
  data : List Byte
  deriving DecidableEq, Repr, Inhabited

/-- `DataReverse`: appends `dataIn[i]` for `i` from `len - 1` down to `0`. -/
def DataReverse (dataIn : List Byte) : List Byte :=
  dataIn.reverse

def Baseblob.SetData (_b : Baseblob) (bytes : List Byte) : Baseblob :=
  ⟨bytes⟩

def Baseblob.GetData (b : Baseblob) : List Byte := b.data

/-- The byte `byte((num1 << 4) | num2)` of two hex characters, the result of
`HexCharToNumber` being taken as zero where it reports an error. -/
def hexPairToByte (c1 c2 : Char) : Byte :=
  ⟨((((HexCharToNumber c1).getD 0) <<< 4) ||| ((HexCharToNumber c2).getD 0)) % 256,
    Nat.mod_lt _ (by decide)⟩

/-- The bytes spelled by consecutive pairs of characters, in text order. -/
def hexPairs : List Char → List Byte
  | c1 :: c2 :: cs => hexPairToByte c1 c2 :: hexPairs cs
  | _ => []

/-- The loop of `Baseblob.SetHex`: with `blobLength = len / 2`, the pair at text
position `i` is stored at index `blobLength - 1 - i`. -/
def setHexData (hexStr : List Char) : List Byte :=
  (hexPairs (hexStr.take (2 * (hexStr.length / 2)))).reverse

/-- `Baseblob.SetHex`: the loop stores the pair at text position `i` at index
`blobLength - 1 - i`, so the data is the pairs in reverse order. Indexing
`hexStr[0]`, `hexStr[1]` panics on a text shorter than two characters. -/
def Baseblob.SetHex (b : Baseblob) (hexStr : List Char) : Baseblob × Option Err :=
  if !IsValidHex hexStr then (b, some Err.invalidHex)
  else
    match hexStr with
    | [] => (b, some Err.panic)
    | [c0] => if c0 = '0' then (b, some Err.panic) else (⟨setHexData hexStr⟩, none)
    | c0 :: c1 :: cs =>
      let hexStr := if c0 = '0' ∧ c1 = 'x' then cs else hexStr
      (⟨setHexData hexStr⟩, none)

/-- The two hex characters of a byte: high nibble, then low nibble. -/
def byteToHex (x : Byte) : List Char :=
  [NumberToHexChar ((x.val &&& 0xf0) >>> 4), NumberToHexChar (x.val &&& 0x0f)]

/-- The hex text of a byte string, two characters a byte, in order. -/
def hexOfBytes : List Byte → List Char
  | [] => []
  | x :: xs => byteToHex x ++ hexOfBytes xs

/-- `Baseblob.GetHex`: the hex text of the reversed data. -/
def Baseblob.GetHex (b : Baseblob) : List Char :=
  hexOfBytes (DataReverse b.data)

/-- `Baseblob.UnPack`: `make` panics on a negative size; the count returned by
`Read` is discarded and only its error is looked at. -/
def Baseblob.UnPack (b : Baseblob) (r : Reader) (unpackSize : Int) :
    Baseblob × Option Err × Reader :=
  if unpackSize < 0 then (b, some Err.panic, r)
  else
    match Read r (List.replicate unpackSize.toNat 0) with
    | (_, _, some err, r) => (b, some err, r)
    | (dataRead, _, none, r) => (⟨dataRead⟩, none, r)

/-! ## `src/pubkey/pubkey.go` -/

structure PubKey where
  data : List Byte
  deriving DecidableEq, Repr, Inhabited

/-- `PubKey.UnPack`: `make` panics on a length that does not fit `int`; the count
returned by `Read` is discarded and only its error is looked at. -/
def PubKey.UnPack (p : PubKey) (r : Reader) : PubKey × Option Err × Reader :=
  match UnPackCompactSize r with
  | (_, some err, r) => (p, some err, r)
  | (u64, none, r) =>
    if 2 ^ 63 ≤ u64 then (p, some Err.panic, r)
    else
      match Read r (List.replicate u64 0) with
      | (_, _, some err, r) => (p, some err, r)
      | (dataRead, _, none, r) => (⟨dataRead⟩, none, r)

def PUBLIC_KEY_SIZE : Nat := 65

def COMPRESSED_PUBLIC_KEY_SIZE : Nat := 33

def GetLen (c : Byte) : Nat :=
  if c = 0x2 ∨ c = 0x3 then COMPRESSED_PUBLIC_KEY_SIZE
  else if c = 0x4 ∨ c = 0x6 ∨ c = 0x7 then PUBLIC_KEY_SIZE
  else 0

/-- `ValidSize`: `len(pubKeyData) > 0 && GetLen(pubKeyData[0]) == len(pubKeyData)`.
The index is evaluated only when the length test holds; an index out of range
would be the error `Err.panic`. -/
def ValidSize (pubKeyData : List Byte) : Bool × Option Err :=
  if pubKeyData.length > 0 then
    match pubKeyData[0]? with
    | none => (false, some Err.panic)
    | some c => (decide (GetLen c = pubKeyData.length), none)
  else (false, none)

def PubKey.SetPubKeyData (p : PubKey) (pubKeyBytes : List Byte) : PubKey × Option Err :=
  match ValidSize pubKeyBytes with
  | (_, some err) => (p, some err)
  | (isValid, none) =>
    if !isValid then (p, some Err.invalidSize) else (⟨pubKeyBytes⟩, none)

def PubKey.GetPubKeyData (p : PubKey) : List Byte × Option Err :=
  match ValidSize p.data with
  | (_, some err) => ([], some err)
  | (isValid, none) =>
    if !isValid then ([], some Err.invalidSize) else (p.data, none)

def PubKey.Pack (p : PubKey) (w : Writer) : Option Err × Writer :=
  match PackCompactSize w (p.data.length % 2 ^ 64) with
  | (some err, w) => (some err, w)
  | (none, w) => Write w (p.data.take p.data.length)

/-- `PubKey.CalcKeyIDBytes`; `utility.Hash160`, absent from the sources, is the
parameter `Hash160`. -/
def PubKey.CalcKeyIDBytes (Hash160 : List Byte → List Byte) (p : PubKey) :
    List Byte × Option Err :=
  match ValidSize p.data with
  | (_, some err) => ([], some err)
  | (isValid, none) =>
    if !isValid then ([], some Err.invalidSize) else (Hash160 p.data, none)

/-- The builtin `copy(dst, src)`: the first `min (len dst) (len src)` elements of
`dst` are replaced by those of `src`. -/
def copyBytes (dst src : List Byte) : List Byte :=
  src.take dst.length ++ dst.drop src.length

/-- `GetUnCompressPubKey`: a buffer of 65 zero bytes, `0x4` at index 0, the 64
bytes copied to `[1:]`; the error of `SetPubKeyData` on a fresh record is
discarded. -/
def GetUnCompressPubKey (pubKeyBytes : List Byte) : Option PubKey × Option Err :=
  if pubKeyBytes.length ≠ 64 then (none, some Err.invalidSize)
  else
    let pubKeyUnCompressBytes := (List.replicate 65 (0 : Byte)).set 0 0x4
    let pubKeyUnCompressBytes := pubKeyUnCompressBytes.take 1 ++
      copyBytes (pubKeyUnCompressBytes.drop 1) (pubKeyBytes.take 64)
    let pubKey := (PubKey.SetPubKeyData default pubKeyUnCompressBytes).1
    (some pubKey, none)

/-- `GetCompressPubKey`: a buffer of 33 zero bytes, `0x2` or `0x3` at index 0
after the parity of `pubKeyBytes[63]` (in range, the length being 64), the first 32
bytes copied to `[1:]`; the error of `SetPubKeyData` on a fresh record is
discarded. -/
def GetCompressPubKey (pubKeyBytes : List Byte) : Option PubKey × Option Err :=
  if pubKeyBytes.length ≠ 64 then (none, some Err.invalidSize)
  else
    let pubKeyCompressBytes := List.replicate 33 (0 : Byte)
    let pubKeyCompressBytes :=
      if (pubKeyBytes.getD 63 0).val % 2 = 0 then pubKeyCompressBytes.set 0 0x2
      else pubKeyCompressBytes.set 0 0x3
    let pubKeyCompressBytes := pubKeyCompressBytes.take 1 ++
      copyBytes (pubKeyCompressBytes.drop 1) (pubKeyBytes.take 32)
    let pubKey := (PubKey.SetPubKeyData default pubKeyCompressBytes).1
    (some pubKey, none)

/-- The size rule of section 3, in its words: leading byte `0x02` or `0x03` with
33 bytes, or leading byte `0x04`, `0x06` or `0x07` with 65 bytes. -/
def sizeRule (d : List Byte) : Prop :=
  (d.length = 33 ∧ (d[0]? = some 0x02 ∨ d[0]? = some 0x03)) ∨
  (d.length = 65 ∧ (d[0]? = some 0x04 ∨ d[0]? = some 0x06 ∨ d[0]? = some 0x07))

instance (d : List Byte) : Decidable (sizeRule d) := by
  unfold sizeRule; infer_instance

/-- A 64-byte point `x‖y`: `x` is 32 bytes `0x11`, `y` ends in the odd byte `0x07`. -/
def samplePoint : List Byte :=
  List.replicate 32 0x11 ++ List.replicate 31 0x22 ++ [0x07]

/-! ## `src/transaction/transaction.go`: entities -/

structure OutPoint where
  Hash : Uint256
  N : Nat
  deriving DecidableEq, Inhabited

def OutPoint.Pack (o : OutPoint) (w : Writer) : Option Err × Writer :=
  match o.Hash.Pack w with
  | (some err, w) => (some err, w)
  | (none, w) =>
    match PackUint32 w o.N with
    | (some err, w) => (some err, w)
    | (none, w) => (none, w)

def OutPoint.UnPack (o : OutPoint) (r : Reader) : OutPoint × Option Err × Reader :=
  match o.Hash.UnPack r with
  | (h, some err, r) => ({ o with Hash := h }, some err, r)
  | (h, none, r) =>
    match UnPackUint32 r with
    | (n, some err, r) => ({ Hash := h, N := n }, some err, r)
    | (n, none, r) => ({ Hash := h, N := n }, none, r)

structure TxIn where
  PrevOut : OutPoint
  ScriptSig : Script
  Sequence : Nat
  ScriptWitness : ScriptWitness
  deriving DecidableEq, Inhabited

def TxIn.Pack (t : TxIn) (w : Writer) : Option Err × Writer :=
  match t.PrevOut.Pack w with
  | (some err, w) => (some err, w)
  | (none, w) =>
    match t.ScriptSig.Pack w with
    | (some err, w) => (some err, w)
    | (none, w) =>
      match PackUint32 w t.Sequence with
      | (some err, w) => (some err, w)
      | (none, w) => (none, w)

def TxIn.UnPack (t : TxIn) (r : Reader) : TxIn × Option Err × Reader :=
  match t.PrevOut.UnPack r with
  | (po, some err, r) => ({ t with PrevOut := po }, some err, r)
  | (po, none, r) =>
    match t.ScriptSig.UnPack r with
    | (ss, some err, r) => ({ t with PrevOut := po, ScriptSig := ss }, some err, r)
    | (ss, none, r) =>
      match UnPackUint32 r with
      | (sq, some err, r) =>
        ({ t with PrevOut := po, ScriptSig := ss, Sequence := sq }, some err, r)
      | (sq, none, r) =>
        ({ t with PrevOut := po, ScriptSig := ss, Sequence := sq }, none, r)

structure TxOut where
  Value : Int
  ScriptPubKey : Script
  deriving DecidableEq, Inhabited

def TxOut.Pack (t : TxOut) (w : Writer) : Option Err × Writer :=
  match PackInt64 w t.Value with
  | (some err, w) => (some err, w)
  | (none, w) =>
    match t.ScriptPubKey.Pack w with
    | (some err, w) => (some err, w)
    | (none, w) => (none, w)

def TxOut.UnPack (t : TxOut) (r : Reader) : TxOut × Option Err × Reader :=
  match UnPackInt64 r with
  | (v, some err, r) => ({ t with Value := v }, some err, r)
  | (v, none, r) =>
    match t.ScriptPubKey.UnPack r with
    | (sp, some err, r) => ({ Value := v, ScriptPubKey := sp }, some err, r)
    | (sp, none, r) => ({ Value := v, ScriptPubKey := sp }, none, r)

structure Transaction where
  Vin : List TxIn
  Vout : List TxOut
  Version : Int
  LockTime : Nat
  deriving DecidableEq, Inhabited

/-! ## `src/transaction/transaction.go`: the codec -/

/-- `Transaction.HasWitness`: true at the first input whose witness stack is not
empty. -/
def hasWitnessLoop : List TxIn → Bool
  | [] => false
  | v :: vs =>
    if v.ScriptWitness.GetScriptWitnessBytes.length ≠ 0 then true else hasWitnessLoop vs

def Transaction.HasWitness (t : Transaction) : Bool :=
  hasWitnessLoop t.Vin

def packVinLoop : List TxIn → Writer → Option Err × Writer
  | [], w => (none, w)
  | v :: vs, w =>
    match v.Pack w with
    | (some err, w) => (some err, w)
    | (none, w) => packVinLoop vs w

def Transaction.packVin (_t : Transaction) (w : Writer) (vin : List TxIn) :
    Option Err × Writer :=
  match PackCompactSize w (vin.length % 2 ^ 64) with
  | (some err, w) => (some err, w)
  | (none, w) => packVinLoop vin w

def packVoutLoop : List TxOut → Writer → Option Err × Writer
  | [], w => (none, w)
  | v :: vs, w =>
    match v.Pack w with
    | (some err, w) => (some err, w)
    | (none, w) => packVoutLoop vs w

def Transaction.packVout (_t : Transaction) (w : Writer) (vout : List TxOut) :
    Option Err × Writer :=
  match PackCompactSize w (vout.length % 2 ^ 64) with
  | (some err, w) => (some err, w)
  | (none, w) => packVoutLoop vout w

/-- The loop of `Transaction.Pack` over the witness stacks of the inputs. -/
def packWitnessLoop : List TxIn → Writer → Option Err × Writer
  | [], w => (none, w)
  | v :: vs, w =>
    match v.ScriptWitness.Pack w with
    | (some err, w) => (some err, w)
    | (none, w) => packWitnessLoop vs w

def Transaction.Pack (t : Transaction) (w : Writer) : Option Err × Writer :=
  match PackInt32 w t.Version with
  | (some err, w) => (some err, w)
  | (none, w) =>
    let flags : Nat := if t.HasWitness then 1 else 0
    match (if flags = 1 then
        (match t.packVin w [] with
          | (some err, w) => (some err, w)
          | (none, w) => PackUint8 w flags)
      else (none, w)) with
    | (some err, w) => (some err, w)
    | (none, w) =>
      match t.packVin w t.Vin with
      | (some err, w) => (some err, w)
      | (none, w) =>
        match t.packVout w t.Vout with
        | (some err, w) => (some err, w)
        | (none, w) =>
          match (if flags = 1 then packWitnessLoop t.Vin w else (none, w)) with
          | (some err, w) => (some err, w)
          | (none, w) =>
            match PackUint32 w t.LockTime with
            | (some err, w) => (some err, w)
            | (none, w) => (none, w)

def Transaction.PackToHex (t : Transaction) : List Char × Option Err :=
  match t.Pack [] with
  | (some err, _) => ([], some err)
  | (none, bytesBuf) => ((Baseblob.SetData default bytesBuf).GetHex, none)

def Transaction.PackNoWitness (t : Transaction) (w : Writer) : Option Err × Writer :=
  match PackInt32 w t.Version with
  | (some err, w) => (some err, w)
  | (none, w) =>
    match t.packVin w t.Vin with
    | (some err, w) => (some err, w)
    | (none, w) =>
      match t.packVout w t.Vout with
      | (some err, w) => (some err, w)
      | (none, w) =>
        match PackUint32 w t.LockTime with
        | (some err, w) => (some err, w)
        | (none, w) => (none, w)

/-- `Transaction.CalcTrxId`; `utility.Sha256`, absent from the sources, is the
parameter `Sha256`, its result a 32-byte value which `SetData` stores. -/
def Transaction.CalcTrxId (Sha256 : List Byte → Uint256) (t : Transaction) :
    Uint256 × Option Err :=
  match t.PackNoWitness [] with
  | (some err, _) => (Uint256.zero, some err)
  | (none, bytesBuf) => (Sha256 (Sha256 bytesBuf).val, none)

/-- The loop of `unpackVin`: each element is unpacked into a fresh `TxIn`. -/
def unpackVinLoop : Nat → Reader → List TxIn × Option Err × Reader
  | 0, r => ([], none, r)
  | n + 1, r =>
    match TxIn.UnPack default r with
    | (_, some err, r) => ([], some err, r)
    | (v, none, r) =>
      match unpackVinLoop n r with
      | (_, some err, r) => ([], some err, r)
      | (vs, none, r) => (v :: vs, none, r)

/-- `Transaction.unpackVin`; `make` panics on a count that does not fit `int`. On
an error the slice returned is nil. -/
def unpackVin (r : Reader) : List TxIn × Option Err × Reader :=
  match UnPackCompactSize r with
  | (_, some err, r) => ([], some err, r)
  | (ui64, none, r) =>
    if 2 ^ 63 ≤ ui64 then ([], some Err.panic, r) else unpackVinLoop ui64 r

/-- The loop of `unpackVout`: each element is unpacked into a fresh `TxOut`. -/
def unpackVoutLoop : Nat → Reader → List TxOut × Option Err × Reader
  | 0, r => ([], none, r)
  | n + 1, r =>
    match TxOut.UnPack default r with
    | (_, some err, r) => ([], some err, r)
    | (v, none, r) =>
      match unpackVoutLoop n r with
      | (_, some err, r) => ([], some err, r)
      | (vs, none, r) => (v :: vs, none, r)

/-- `Transaction.unpackVout`; `make` panics on a count that does not fit `int`. -/
def unpackVout (r : Reader) : List TxOut × Option Err × Reader :=
  match UnPackCompactSize r with
  | (_, some err, r) => ([], some err, r)
  | (ui64, none, r) =>
    if 2 ^ 63 ≤ ui64 then ([], some Err.panic, r) else unpackVoutLoop ui64 r

/-- The loop of `Transaction.UnPack` over `t.Vin[i].ScriptWitness.UnPack(reader)`:
the inputs are updated in place, those before a failing one stay updated. -/
def unpackWitnessLoop : List TxIn → Reader → List TxIn × Option Err × Reader
  | [], r => ([], none, r)
  | v :: vs, r =>
    match v.ScriptWitness.UnPack r with
    | (sw, some err, r) => ({ v with ScriptWitness := sw } :: vs, some err, r)
    | (sw, none, r) =>
      match unpackWitnessLoop vs r with
      | (vs, err, r) => ({ v with ScriptWitness := sw } :: vs, err, r)

/-- Lines 359 to 366 of `Transaction.UnPack`: the check of the remaining flag
bits and the read of `LockTime`. -/
def Transaction.unpackEnd (t : Transaction) (flags : Nat) (r : Reader) :
    Transaction × Option Err × Reader :=
  if flags ≠ 0 then (t, some Err.unknownOption, r)
  else
    match UnPackUint32 r with
    | (lockTime, some err, r) => ({ t with LockTime := lockTime }, some err, r)
    | (lockTime, none, r) => ({ t with LockTime := lockTime }, none, r)

/-- Lines 349 to 366 of `Transaction.UnPack`: the witness section, then the end. -/
def Transaction.unpackTail (t : Transaction) (flags : Nat) (r : Reader) :
    Transaction × Option Err × Reader :=
  if flags &&& 1 = 1 then
    match unpackWitnessLoop t.Vin r with
    | (vin, some err, r) => ({ t with Vin := vin }, some err, r)
    | (vin, none, r) => Transaction.unpackEnd { t with Vin := vin } (flags ^^^ 1) r
  else Transaction.unpackEnd t flags r

def Transaction.UnPack (t : Transaction) (r : Reader) :
    Transaction × Option Err × Reader :=
  match UnPackInt32 r with
  | (version, some err, r) => ({ t with Version := version }, some err, r)
  | (version, none, r) =>
    let t := { t with Version := version }
    match unpackVin r with
    | (_, some err, r) => (t, some err, r)
    | (vin, none, r) =>
      let t := { t with Vin := vin }
      if vin.length = 0 then
        match UnPackUint8 r with
        | (_, some err, r) => (t, some err, r)
        | (flags, none, r) =>
          if flags ≠ 0 then
            match unpackVin r with
            | (_, some err, r) => (t, some err, r)
            | (vin, none, r) =>
              let t := { t with Vin := vin }
              match unpackVout r with
              | (_, some err, r) => (t, some err, r)
              | (vout, none, r) => Transaction.unpackTail { t with Vout := vout } flags r
          else Transaction.unpackTail t flags r
      else
        match unpackVout r with
        | (_, some err, r) => (t, some err, r)
        | (vout, none, r) => Transaction.unpackTail { t with Vout := vout } 0 r

def Transaction.UnPackFromHex (t : Transaction) (hexStr : List Char) :
    Transaction × Option Err :=
  match Baseblob.SetHex default hexStr with
  | (_, some err) => (t, some err)
  | (Blob, none) =>
    match t.UnPack Blob.GetData with
    | (t, some err, _) => (t, some err)
    | (t, none, _) => (t, none)

/-! ## Evaluation on the end-to-end scenario -/

/-- The coinbase-shaped transaction of the end-to-end scenario. -/
def coinbaseTx : Transaction :=
  { Version := 1
    Vin := [{ PrevOut := { Hash := Uint256.zero, N := 0xffffffff }
              ScriptSig := ⟨[]⟩
              Sequence := 0xffffffff
              ScriptWitness := ⟨[]⟩ }]
    Vout := [{ Value := 5000000000, ScriptPubKey := ⟨[]⟩ }]
    LockTime := 0 }

/-- The 60 bytes `01000000 01 (00 x 32) ffffffff 00 ffffffff 01 00f2052a01000000
00 00000000`. -/
def coinbaseBytes : List Byte :=
  [0x01, 0x00, 0x00, 0x00, 0x01] ++ List.replicate 32 0x00 ++
  [0xff, 0xff, 0xff, 0xff, 0x00, 0xff, 0xff, 0xff, 0xff, 0x01,
   0x00, 0xf2, 0x05, 0x2a, 0x01, 0x00, 0x00, 0x00, 0x00,
   0x00, 0x00, 0x00, 0x00]

/-! ## `src/transaction/transaction.go`: the presentation view -/

structure OutPointPrintAble where
  Hash : List Char
  N : Nat
  deriving DecidableEq, Inhabited

structure TxInPrintAble where
  PrevOut : OutPointPrintAble
  ScriptSig : List Char
  Sequence : Nat
  ScriptWitness : List (List Char)
  deriving DecidableEq, Inhabited

structure TxOutPrintAble where
  Value : Int
  ScriptPubKey : List Char
  Address : List Char
  ScriptType : List Char
  deriving DecidableEq, Inhabited

structure TrxPrintAble where
  Vin : List TxInPrintAble
  Vout : List TxOutPrintAble
  Version : Int
  LockTime : Nat
  deriving DecidableEq, Inhabited

/-- Go's `hex.EncodeToString`: two lower-case hex digits a byte, in order. -/
def EncodeToString (src : List Byte) : List Char :=
  src.flatMap (fun b =>
    ["0123456789abcdef".toList.getD (b.val >>> 4) '0',
     "0123456789abcdef".toList.getD (b.val &&& 0x0f) '0'])

/-- Modelled from the spec: `Uint256.GetHex`, absent from the sources; the textual
form of a hash is the byte-reversed hex encoding of the blob utility. -/
def Uint256.GetHex (h : Uint256) : List Char :=
  Baseblob.GetHex ⟨h.val⟩

/-- The script-classification collaborator of section 6, absent from the sources:
`script.ExtractDestination`, `script.IsSingleAddress`, `script.IsMultiAddress` and
`script.GetScriptTypeStr`, over a type of script-type tags. -/
structure ScriptApi (ScriptType : Type) where
  ExtractDestination : Script → Bool × ScriptType × List (List Char)
  IsSingleAddress : ScriptType → Bool
  IsMultiAddress : ScriptType → Bool
  GetScriptTypeStr : ScriptType → List Char

/-- The body of the loop of `GetTrxPrintAble` over the inputs. -/
def vinPrintAble (v : TxIn) : TxInPrintAble :=
  let hash := v.PrevOut.Hash.GetHex
  let hash := if v.PrevOut.Hash.GetHex = List.replicate 64 '0' then [] else hash
  { PrevOut := { Hash := hash, N := v.PrevOut.N }
    ScriptSig := EncodeToString v.ScriptSig.GetScriptBytes
    Sequence := v.Sequence
    ScriptWitness := v.ScriptWitness.GetScriptWitnessBytes.map EncodeToString }

/-- The body of the loop of `GetTrxPrintAble` over the outputs; `addresses[0]`
panics on an empty address list. -/
def voutPrintAble {ScriptType : Type} (api : ScriptApi ScriptType) (v : TxOut) :
    TxOutPrintAble × Option Err :=
  match api.ExtractDestination v.ScriptPubKey with
  | (isSucc, scriptType, addresses) =>
    match (if isSucc then
        (if api.IsSingleAddress scriptType then
          (match addresses with
            | [] => ([], some Err.panic)
            | a :: _ => (a, none))
        else if api.IsMultiAddress scriptType then
          (List.intercalate [','] addresses, none)
        else ([], none))
      else ([], none)) with
    | (_, some err) => (default, some err)
    | (addrStr, none) =>
      ({ Value := v.Value
         ScriptPubKey := EncodeToString v.ScriptPubKey.GetScriptBytes
         Address := addrStr
         ScriptType := api.GetScriptTypeStr scriptType }, none)

/-- The loop of `GetTrxPrintAble` over the outputs, in order. -/
def voutPrintAbleLoop {ScriptType : Type} (api : ScriptApi ScriptType) :
    List TxOut → List TxOutPrintAble × Option Err
  | [] => ([], none)
  | v :: vs =>
    match voutPrintAble api v with
    | (_, some err) => ([], some err)
    | (p, none) =>
      match voutPrintAbleLoop api vs with
      | (_, some err) => ([], some err)
      | (ps, none) => (p :: ps, none)

/-- `Transaction.GetTrxPrintAble`; a panic in the loop over the outputs is the
error returned with an empty view. -/
def Transaction.GetTrxPrintAble {ScriptType : Type} (api : ScriptApi ScriptType)
    (t : Transaction) : TrxPrintAble × Option Err :=
  match voutPrintAbleLoop api t.Vout with
  | (_, some err) => (default, some err)
  | (vout, none) =>
    ({ Vin := t.Vin.map vinPrintAble, Vout := vout, Version := t.Version,
       LockTime := t.LockTime }, none)

/-- A classification that reports no destination for any script. -/
def noDestinationApi : ScriptApi Nat :=
  { ExtractDestination := fun _ => (false, 0, [])
    IsSingleAddress := fun ty => ty == 1
    IsMultiAddress := fun ty => ty == 2
    GetScriptTypeStr := fun _ => "nonstandard".toList }

/-- A classification that reports one destination for every script. -/
def singleDestinationApi : ScriptApi Nat :=
  { ExtractDestination := fun _ => (true, 1, ["addr".toList])
    IsSingleAddress := fun ty => ty == 1
    IsMultiAddress := fun ty => ty == 2
    GetScriptTypeStr := fun _ => "pubkeyhash".toList }

/-- What the classification of an output must meet for `addresses[0]` to be in
range: a successful single-destination result carries an address. -/
def destinationOk {ScriptType : Type} (api : ScriptApi ScriptType) (o : TxOut) : Prop :=
  (api.ExtractDestination o.ScriptPubKey).1 = true →
    api.IsSingleAddress (api.ExtractDestination o.ScriptPubKey).2.1 = true →
      (api.ExtractDestination o.ScriptPubKey).2.2 ≠ []

/-! ## The wire layout, in the words of the specification -/

/-- A script on the wire: a compact-size length followed by that many raw bytes. -/
def Script.wire (s : Script) : List Byte :=
  compactSizeBytes (s.data.length % 2 ^ 64) ++ s.data

/-- An outpoint on the wire: the 32-byte hash, then the index as 4 little-endian
bytes. -/
def OutPoint.wire (o : OutPoint) : List Byte :=
  o.Hash.val ++ leBytes 4 o.N

/-- An input on the wire: previous output, scriptSig, sequence; no witness. -/
def TxIn.wire (t : TxIn) : List Byte :=
  t.PrevOut.wire ++ t.ScriptSig.wire ++ leBytes 4 t.Sequence

/-- An output on the wire: the value as 8 little-endian bytes, then the
scriptPubKey. -/
def TxOut.wire (t : TxOut) : List Byte :=
  leBytes 8 (t.Value % 2 ^ 64).toNat ++ t.ScriptPubKey.wire

/-- A witness element on the wire: a compact-size-prefixed byte string. -/
def witnessItemWire (e : List Byte) : List Byte :=
  compactSizeBytes (e.length % 2 ^ 64) ++ e

/-- A witness stack on the wire: a compact-size element count, then each element. -/
def ScriptWitness.wire (s : ScriptWitness) : List Byte :=
  compactSizeBytes (s.stack.length % 2 ^ 64) ++ (s.stack.map witnessItemWire).flatten

/-- An input list on the wire: a compact-size count, then each input. -/
def vinWire (vin : List TxIn) : List Byte :=
  compactSizeBytes (vin.length % 2 ^ 64) ++ (vin.map TxIn.wire).flatten

/-- An output list on the wire: a compact-size count, then each output. -/
def voutWire (vout : List TxOut) : List Byte :=
  compactSizeBytes (vout.length % 2 ^ 64) ++ (vout.map TxOut.wire).flatten

/-- The witness section: one witness stack for every input, in input order. -/
def witnessSectionWire (vin : List TxIn) : List Byte :=
  (vin.map (fun v => v.ScriptWitness.wire)).flatten

/-- The version field: 4 little-endian bytes of the two's complement. -/
def versionWire (t : Transaction) : List Byte :=
  leBytes 4 (t.Version % 2 ^ 32).toNat

/-- The witness-extended layout of section 4.4: version, the dummy empty input
list, the flag byte, inputs, outputs, witness section, lockTime. -/
def witnessLayout (t : Transaction) : List Byte :=
  versionWire t ++ [0x00] ++ [0x01] ++ vinWire t.Vin ++ voutWire t.Vout ++
    witnessSectionWire t.Vin ++ leBytes 4 t.LockTime

/-- The layout without marker, flag and witness section: version, inputs, outputs,
lockTime. -/
def legacyLayout (t : Transaction) : List Byte :=
  versionWire t ++ vinWire t.Vin ++ voutWire t.Vout ++ leBytes 4 t.LockTime

/-! ## Values the Go types can hold -/

/-- A byte string whose length fits `int`. -/
def lenOk (l : List Byte) : Prop := l.length < 2 ^ 63

instance (l : List Byte) : Decidable (lenOk l) := by
  unfold lenOk; infer_instance

/-- An input whose integers are in the range of their types and whose slices
have lengths that fit `int`. -/
def TxIn.WF (t : TxIn) : Prop :=
  t.PrevOut.N < 2 ^ 32 ∧ lenOk t.ScriptSig.data ∧ t.Sequence < 2 ^ 32 ∧
    t.ScriptWitness.stack.length < 2 ^ 63 ∧ ∀ e ∈ t.ScriptWitness.stack, lenOk e

instance (t : TxIn) : Decidable t.WF := by
  unfold TxIn.WF; infer_instance

/-- An output whose value is in the range of `int64` and whose script has a
length that fits `int`. -/
def TxOut.WF (t : TxOut) : Prop :=
  -2 ^ 63 ≤ t.Value ∧ t.Value < 2 ^ 63 ∧ lenOk t.ScriptPubKey.data

instance (t : TxOut) : Decidable t.WF := by
  unfold TxOut.WF; infer_instance

/-- A transaction whose integers are in the range of their types, whose slices
have lengths that fit `int` and whose inputs and outputs are such. -/
def Transaction.WF (t : Transaction) : Prop :=
  -2 ^ 31 ≤ t.Version ∧ t.Version < 2 ^ 31 ∧ t.LockTime < 2 ^ 32 ∧
    t.Vin.length < 2 ^ 63 ∧ t.Vout.length < 2 ^ 63 ∧
    (∀ v ∈ t.Vin, v.WF) ∧ ∀ v ∈ t.Vout, v.WF

instance (t : Transaction) : Decidable t.WF := by
  unfold Transaction.WF; infer_instance

/-- An input with its witness stack emptied: what `TxIn.UnPack` restores into a
fresh record. -/
def TxIn.noWitness (t : TxIn) : TxIn :=
  { t with ScriptWitness := ⟨[]⟩ }

/-! ## Concrete values -/

/-- A transaction with two inputs, the first carrying a witness stack of two
elements, the second none. -/
def segwitTx : Transaction :=
  { Version := 2
    Vin := [{ PrevOut := { Hash := ⟨List.replicate 32 0x11, by decide⟩, N := 1 }
              ScriptSig := ⟨[]⟩
              Sequence := 0xfffffffe
              ScriptWitness := ⟨[[0xaa, 0xbb], []]⟩ },
            { PrevOut := { Hash := ⟨List.replicate 32 0x22, by decide⟩, N := 0 }
              ScriptSig := ⟨[0x51]⟩
              Sequence := 0xffffffff
              ScriptWitness := ⟨[]⟩ }]
    Vout := [{ Value := 1000, ScriptPubKey := ⟨[0x51]⟩ }]
    LockTime := 7 }

/-- The transaction `segwitTx` with other witness stacks on its inputs. -/
def segwitTxOther : Transaction :=
  { segwitTx with
    Vin := segwitTx.Vin.map (fun v => { v with ScriptWitness := ⟨[[0x01]]⟩ }) }

/-- A transaction with no input and one output. -/
def noInputTx : Transaction :=
  { Version := 1
    Vin := []
    Vout := [{ Value := 0, ScriptPubKey := ⟨[]⟩ }]
    LockTime := 0 }

/-- A transaction with no input and one output of value 1. -/
def noInputTxOne : Transaction :=
  { Version := 1
    Vin := []
    Vout := [{ Value := 1, ScriptPubKey := ⟨[]⟩ }]
    LockTime := 0 }

/-- A stand-in for a digest of 32 bytes: the input cut or zero-padded to 32
bytes. -/
def toyDigest (bs : List Byte) : Uint256 :=
  ⟨(bs ++ List.replicate 32 0).take 32, by simp [List.length_take]⟩

/-- A stream that ends after the output count: version 2, one input, no output,
no lockTime. -/
def truncatedStream : List Byte :=
  [0x02, 0x00, 0x00, 0x00, 0x01] ++ List.replicate 32 0x11 ++
  [0x00, 0x00, 0x00, 0x00, 0x00, 0x00, 0x00, 0x00, 0x00, 0x00]

/-- A stream with the marker and the flag byte `0x02`, then an empty input list
and an empty output list. -/
def flagTwoStream : List Byte :=
  [0x02, 0x00, 0x00, 0x00, 0x00, 0x02, 0x00, 0x00]

/-- A stream that ends after the marker and the flag byte `0x02`. -/
def flagTwoOnlyStream : List Byte :=
  [0x01, 0x00, 0x00, 0x00, 0x00, 0x02]

/-- A stream with the marker and the flag byte `0x02`, then the input list and the
output list of the coinbase-shaped transaction. -/
def flagTwoListsStream : List Byte :=
  [0x01, 0x00, 0x00, 0x00, 0x00, 0x02] ++ vinWire coinbaseTx.Vin ++ voutWire coinbaseTx.Vout

/-! ## Streams: lemmas -/

@[simp] theorem Write_eq (w : Writer) (p : List Byte) : Write w p = (none, w ++ p) := rfl

@[simp] theorem length_leBytes (k n : Nat) : (leBytes k n).length = k := by
  induction k generalizing n with
  | zero => rfl
  | succ k ih => simp [leBytes, ih]

theorem leValue_leBytes (k n : Nat) : leValue (leBytes k n) = n % 256 ^ k := by
  induction k generalizing n with
  | zero => simp [leBytes, leValue, Nat.mod_one]
  | succ k ih =>
    simp only [leBytes, leValue, ih]
    rw [pow_succ, Nat.mul_comm (256 ^ k) 256, Nat.mod_mul]

theorem ReadFull_append (bs rest : List Byte) (n : Nat) (h : bs.length = n) :
    ReadFull (bs ++ rest) n = (bs, none, rest) := by
  subst h
  simp [ReadFull]

theorem readLE_leBytes (k n : Nat) (rest : List Byte) :
    readLE (leBytes k n ++ rest) k = (n % 256 ^ k, none, rest) := by
  simp [readLE, ReadFull_append _ _ k (length_leBytes k n), leValue_leBytes]

theorem readLE_leBytes_of_lt (k n : Nat) (rest : List Byte) (h : n < 256 ^ k) :
    readLE (leBytes k n ++ rest) k = (n, none, rest) := by
  rw [readLE_leBytes, Nat.mod_eq_of_lt h]

theorem UnPackUint32_leBytes (n : Nat) (rest : List Byte) (h : n < 2 ^ 32) :
    UnPackUint32 (leBytes 4 n ++ rest) = (n, none, rest) :=
  readLE_leBytes_of_lt 4 n rest (by norm_num at h ⊢; exact h)

theorem UnPackUint8_cons (b : Byte) (rest : List Byte) :
    UnPackUint8 (b :: rest) = (b.val, none, rest) := by
  simp [UnPackUint8, readLE, ReadFull, leValue]

theorem UnPackCompactSize_bytes (n : Nat) (rest : List Byte) (h : n < 2 ^ 64) :
    UnPackCompactSize (compactSizeBytes n ++ rest) = (n, none, rest) := by
  unfold compactSizeBytes
  split_ifs with h1 h2 h3
  · have := readLE_leBytes_of_lt 1 n rest (by omega)
    simp [UnPackCompactSize, UnPackUint8, this, h1]
  · have := readLE_leBytes_of_lt 2 n rest (by norm_num; omega)
    have e : ((0xfd : Byte) : Nat) = 0xfd := rfl
    simp [UnPackCompactSize, UnPackUint8_cons, this, e]
  · have := readLE_leBytes_of_lt 4 n rest (by norm_num; omega)
    have e : ((0xfe : Byte) : Nat) = 0xfe := rfl
    simp [UnPackCompactSize, UnPackUint8_cons, this, e]
  · have := readLE_leBytes_of_lt 8 n rest (by norm_num; omega)
    have e : ((0xff : Byte) : Nat) = 0xff := rfl
    simp [UnPackCompactSize, UnPackUint8_cons, this, e]

/-! ## Packing: every pack function appends the wire form -/

@[simp] theorem PackUint32_eq (w : Writer) (v : Nat) :
    PackUint32 w v = (none, w ++ leBytes 4 v) := rfl

@[simp] theorem PackCompactSize_eq (w : Writer) (n : Nat) :
    PackCompactSize w n = (none, w ++ compactSizeBytes n) := rfl

@[simp] theorem Script_Pack_eq (s : Script) (w : Writer) :
    s.Pack w = (none, w ++ s.wire) := by
  simp [Script.Pack, Script.wire]

@[simp] theorem OutPoint_Pack_eq (o : OutPoint) (w : Writer) :
    o.Pack w = (none, w ++ o.wire) := by
  simp [OutPoint.Pack, OutPoint.wire, Uint256.Pack]

@[simp] theorem TxIn_Pack_eq (t : TxIn) (w : Writer) :
    t.Pack w = (none, w ++ t.wire) := by
  simp [TxIn.Pack, TxIn.wire]

@[simp] theorem TxOut_Pack_eq (t : TxOut) (w : Writer) :
    t.Pack w = (none, w ++ t.wire) := by
  simp [TxOut.Pack, TxOut.wire, PackInt64]

theorem packWitnessItems_eq (es : List (List Byte)) (w : Writer) :
    packWitnessItems es w = (none, w ++ (es.map witnessItemWire).flatten) := by
  induction es generalizing w with
  | nil => simp [packWitnessItems]
  | cons e es ih => simp [packWitnessItems, packWitnessItem, witnessItemWire, ih]

@[simp] theorem ScriptWitness_Pack_eq (s : ScriptWitness) (w : Writer) :
    s.Pack w = (none, w ++ s.wire) := by
  simp [ScriptWitness.Pack, ScriptWitness.wire, packWitnessItems_eq]

theorem packVinLoop_eq (vin : List TxIn) (w : Writer) :
    packVinLoop vin w = (none, w ++ (vin.map TxIn.wire).flatten) := by
  induction vin generalizing w with
  | nil => simp [packVinLoop]
  | cons v vs ih => simp [packVinLoop, ih]

theorem packVoutLoop_eq (vout : List TxOut) (w : Writer) :
    packVoutLoop vout w = (none, w ++ (vout.map TxOut.wire).flatten) := by
  induction vout generalizing w with
  | nil => simp [packVoutLoop]
  | cons v vs ih => simp [packVoutLoop, ih]

theorem packWitnessLoop_eq (vin : List TxIn) (w : Writer) :
    packWitnessLoop vin w = (none, w ++ witnessSectionWire vin) := by
  induction vin generalizing w with
  | nil => simp [packWitnessLoop, witnessSectionWire]
  | cons v vs ih =>
    simp only [witnessSectionWire] at ih
    simp [packWitnessLoop, witnessSectionWire, ih]

@[simp] theorem packVin_eq (t : Transaction) (w : Writer) (vin : List TxIn) :
    t.packVin w vin = (none, w ++ vinWire vin) := by
  simp [Transaction.packVin, vinWire, packVinLoop_eq]

@[simp] theorem packVout_eq (t : Transaction) (w : Writer) (vout : List TxOut) :
    t.packVout w vout = (none, w ++ voutWire vout) := by
  simp [Transaction.packVout, voutWire, packVoutLoop_eq]

theorem PackNoWitness_eq (t : Transaction) (w : Writer) :
    t.PackNoWitness w = (none, w ++ legacyLayout t) := by
  simp [Transaction.PackNoWitness, legacyLayout, versionWire, PackInt32]

theorem Pack_eq_of_hasWitness (t : Transaction) (w : Writer) (h : t.HasWitness = true) :
    t.Pack w = (none, w ++ witnessLayout t) := by
  have hv : vinWire [] = [0x00] := by decide
  have h1 : leBytes 1 1 = [0x01] := by decide
  simp [Transaction.Pack, witnessLayout, versionWire, PackInt32, PackUint8, h,
    packWitnessLoop_eq, hv, h1]

theorem Pack_eq_of_not_hasWitness (t : Transaction) (w : Writer)
    (h : t.HasWitness = false) : t.Pack w = (none, w ++ legacyLayout t) := by
  simp [Transaction.Pack, legacyLayout, versionWire, PackInt32, h]

/-! ## Unpacking the wire form -/

theorem toSigned_32 (v : Int) (h1 : -2 ^ 31 ≤ v) (h2 : v < 2 ^ 31) :
    toSigned 32 ((v % 2 ^ 32).toNat % 256 ^ 4) = v := by
  unfold toSigned
  norm_num at h1 h2 ⊢
  split_ifs with h <;> omega

theorem toSigned_64 (v : Int) (h1 : -2 ^ 63 ≤ v) (h2 : v < 2 ^ 63) :
    toSigned 64 ((v % 2 ^ 64).toNat % 256 ^ 8) = v := by
  unfold toSigned
  norm_num at h1 h2 ⊢
  split_ifs with h <;> omega

theorem UnPackInt32_wire (v : Int) (rest : List Byte) (h1 : -2 ^ 31 ≤ v) (h2 : v < 2 ^ 31) :
    UnPackInt32 (leBytes 4 (v % 2 ^ 32).toNat ++ rest) = (v, none, rest) := by
  simp only [UnPackInt32, readLE_leBytes, toSigned_32 v h1 h2]

theorem UnPackInt64_wire (v : Int) (rest : List Byte) (h1 : -2 ^ 63 ≤ v) (h2 : v < 2 ^ 63) :
    UnPackInt64 (leBytes 8 (v % 2 ^ 64).toNat ++ rest) = (v, none, rest) := by
  simp only [UnPackInt64, readLE_leBytes, toSigned_64 v h1 h2]

theorem Uint256_UnPack_wire (h x : Uint256) (rest : List Byte) :
    Uint256.UnPack h (x.val ++ rest) = (x, none, rest) := by
  have hl : 32 ≤ (x.val ++ rest).length := by simp [x.property]
  unfold Uint256.UnPack
  rw [dif_pos hl]
  have ht : List.take 32 (x.val ++ rest) = x.val := List.take_left' x.property
  have hd : List.drop 32 (x.val ++ rest) = rest := List.drop_left' x.property
  simp only [hd, Prod.mk.injEq, and_true]
  exact Subtype.ext ht

theorem OutPoint_UnPack_wire (o p : OutPoint) (rest : List Byte) (hp : p.N < 2 ^ 32) :
    o.UnPack (p.wire ++ rest) = (p, none, rest) := by
  simp only [OutPoint.UnPack, OutPoint.wire, List.append_assoc, Uint256_UnPack_wire,
    UnPackUint32_leBytes _ _ hp]

theorem Script_UnPack_wire (s x : Script) (rest : List Byte) (hx : lenOk x.data) :
    s.UnPack (x.wire ++ rest) = (x, none, rest) := by
  unfold lenOk at hx
  have h64 : x.data.length % 2 ^ 64 = x.data.length := Nat.mod_eq_of_lt (by omega)
  simp only [Script.UnPack, Script.wire, List.append_assoc, h64,
    UnPackCompactSize_bytes _ _ (show x.data.length < 2 ^ 64 by omega),
    ReadFull_append _ _ _ rfl]

theorem TxIn_UnPack_fields (t x : TxIn) (rest : List Byte) (hn : x.PrevOut.N < 2 ^ 32)
    (hs : lenOk x.ScriptSig.data) (hq : x.Sequence < 2 ^ 32) :
    t.UnPack (x.wire ++ rest) = ({ x with ScriptWitness := t.ScriptWitness }, none, rest) := by
  simp only [TxIn.UnPack, TxIn.wire, List.append_assoc, OutPoint_UnPack_wire _ _ _ hn,
    Script_UnPack_wire _ _ _ hs, UnPackUint32_leBytes _ _ hq]

theorem TxOut_UnPack_wire (t x : TxOut) (rest : List Byte) (hx : x.WF) :
    t.UnPack (x.wire ++ rest) = (x, none, rest) := by
  obtain ⟨h1, h2, hs⟩ := hx
  simp only [TxOut.UnPack, TxOut.wire, List.append_assoc, UnPackInt64_wire _ _ h1 h2,
    Script_UnPack_wire _ _ _ hs]

theorem TxIn_UnPack_wire (t x : TxIn) (rest : List Byte) (hx : x.WF) :
    t.UnPack (x.wire ++ rest) = ({ x with ScriptWitness := t.ScriptWitness }, none, rest) :=
  TxIn_UnPack_fields t x rest hx.1 hx.2.1 hx.2.2.1

theorem unpackVinLoop_wire (vin : List TxIn) (rest : List Byte) (hwf : ∀ v ∈ vin, v.WF) :
    unpackVinLoop vin.length ((vin.map TxIn.wire).flatten ++ rest) =
      (vin.map TxIn.noWitness, none, rest) := by
  induction vin with
  | nil => simp [unpackVinLoop]
  | cons v vs ih =>
    have hv : v.WF := hwf v (List.mem_cons_self _ _)
    have hvs : ∀ u ∈ vs, u.WF := fun u hu => hwf u (List.mem_cons_of_mem _ hu)
    simp only [List.length_cons, List.map_cons, List.flatten_cons, List.append_assoc,
      unpackVinLoop, TxIn_UnPack_wire _ _ _ hv, ih hvs]
    rfl

theorem unpackVoutLoop_wire (vout : List TxOut) (rest : List Byte)
    (hwf : ∀ v ∈ vout, v.WF) :
    unpackVoutLoop vout.length ((vout.map TxOut.wire).flatten ++ rest) =
      (vout, none, rest) := by
  induction vout with
  | nil => simp [unpackVoutLoop]
  | cons v vs ih =>
    have hv : v.WF := hwf v (List.mem_cons_self _ _)
    have hvs : ∀ u ∈ vs, u.WF := fun u hu => hwf u (List.mem_cons_of_mem _ hu)
    simp only [List.length_cons, List.map_cons, List.flatten_cons, List.append_assoc,
      unpackVoutLoop, TxOut_UnPack_wire _ _ _ hv, ih hvs]

theorem unpackVin_wire (vin : List TxIn) (rest : List Byte) (hlen : vin.length < 2 ^ 63)
    (hwf : ∀ v ∈ vin, v.WF) :
    unpackVin (vinWire vin ++ rest) = (vin.map TxIn.noWitness, none, rest) := by
  have h64 : vin.length % 2 ^ 64 = vin.length := Nat.mod_eq_of_lt (by omega)
  simp only [unpackVin, vinWire, List.append_assoc, h64,
    UnPackCompactSize_bytes _ _ (show vin.length < 2 ^ 64 by omega),
    if_neg (show ¬ 2 ^ 63 ≤ vin.length by omega), unpackVinLoop_wire vin rest hwf]

theorem unpackVout_wire (vout : List TxOut) (rest : List Byte)
    (hlen : vout.length < 2 ^ 63) (hwf : ∀ v ∈ vout, v.WF) :
    unpackVout (voutWire vout ++ rest) = (vout, none, rest) := by
  have h64 : vout.length % 2 ^ 64 = vout.length := Nat.mod_eq_of_lt (by omega)
  simp only [unpackVout, voutWire, List.append_assoc, h64,
    UnPackCompactSize_bytes _ _ (show vout.length < 2 ^ 64 by omega),
    if_neg (show ¬ 2 ^ 63 ≤ vout.length by omega), unpackVoutLoop_wire vout rest hwf]

theorem unpackWitnessItems_wire (es : List (List Byte)) (rest : List Byte)
    (hwf : ∀ e ∈ es, lenOk e) :
    unpackWitnessItems es.length ((es.map witnessItemWire).flatten ++ rest) =
      (es, none, rest) := by
  induction es with
  | nil => simp [unpackWitnessItems]
  | cons e es ih =>
    have he : e.length < 2 ^ 63 := hwf e (List.mem_cons_self _ _)
    have hes : ∀ u ∈ es, lenOk u := fun u hu => hwf u (List.mem_cons_of_mem _ hu)
    have h64 : e.length % 2 ^ 64 = e.length := Nat.mod_eq_of_lt (by omega)
    simp only [List.length_cons, List.map_cons, List.flatten_cons, List.append_assoc,
      unpackWitnessItems, unpackWitnessItem, witnessItemWire, h64,
      UnPackCompactSize_bytes _ _ (show e.length < 2 ^ 64 by omega),
      ReadFull_append _ _ _ rfl, ih hes]

theorem ScriptWitness_UnPack_wire (s x : ScriptWitness) (rest : List Byte)
    (hlen : x.stack.length < 2 ^ 63) (hwf : ∀ e ∈ x.stack, lenOk e) :
    s.UnPack (x.wire ++ rest) = (x, none, rest) := by
  have h64 : x.stack.length % 2 ^ 64 = x.stack.length := Nat.mod_eq_of_lt (by omega)
  simp only [ScriptWitness.UnPack, ScriptWitness.wire, List.append_assoc, h64,
    UnPackCompactSize_bytes _ _ (show x.stack.length < 2 ^ 64 by omega),
    unpackWitnessItems_wire _ _ hwf]

theorem unpackWitnessLoop_wire (vin : List TxIn) (rest : List Byte)
    (hwf : ∀ v ∈ vin, v.WF) :
    unpackWitnessLoop (vin.map TxIn.noWitness) (witnessSectionWire vin ++ rest) =
      (vin, none, rest) := by
  induction vin with
  | nil => simp [unpackWitnessLoop, witnessSectionWire]
  | cons v vs ih =>
    have hv : v.WF := hwf v (List.mem_cons_self _ _)
    have hvs : ∀ u ∈ vs, u.WF := fun u hu => hwf u (List.mem_cons_of_mem _ hu)
    obtain ⟨-, -, -, hl, he⟩ := hv
    have ih2 := ih hvs
    simp only [witnessSectionWire] at ih2
    simp only [witnessSectionWire, List.map_cons, List.flatten_cons, List.append_assoc,
      unpackWitnessLoop, ScriptWitness_UnPack_wire _ _ _ hl he, ih2]
    rfl

theorem map_noWitness_of_not_hasWitness (vin : List TxIn)
    (h : hasWitnessLoop vin = false) : vin.map TxIn.noWitness = vin := by
  induction vin with
  | nil => rfl
  | cons v vs ih =>
    simp only [hasWitnessLoop, ScriptWitness.GetScriptWitnessBytes] at h
    split_ifs at h with h0
    have hs : v.ScriptWitness.stack = [] := by
      have : v.ScriptWitness.stack.length = 0 := by simpa using h0
      exact List.length_eq_zero.mp this
    have hv : v.noWitness = v := by
      cases v with
      | mk po ss sq sw =>
        cases sw with
        | mk st =>
          simp only at hs
          subst hs
          rfl
    simp only [List.map_cons, hv, ih h]

theorem hasWitnessLoop_ne_nil (vin : List TxIn) (h : hasWitnessLoop vin = true) :
    vin ≠ [] := by
  intro hn
  subst hn
  simp [hasWitnessLoop] at h

theorem unpackVin_marker (rest : List Byte) :
    unpackVin ((0x00 : Byte) :: rest) = ([], none, rest) := by
  have := unpackVin_wire [] rest (by norm_num) (by simp)
  simpa [vinWire, compactSizeBytes, leBytes] using this

/-- Decoding the witness-extended layout of a transaction restores it and stops
at the end of the layout. -/
theorem UnPack_witnessLayout (t0 t : Transaction) (rest : List Byte) (hwf : t.WF)
    (hw : t.HasWitness = true) :
    t0.UnPack (witnessLayout t ++ rest) = (t, none, rest) := by
  obtain ⟨hv1, hv2, hlt, hil, hol, hin, hout⟩ := hwf
  have hne : (List.map TxIn.noWitness t.Vin).length ≠ 0 := by
    have := hasWitnessLoop_ne_nil t.Vin hw
    simpa using this
  have e1 : ((1 : Byte) : Nat) = 1 := rfl
  simp only [Transaction.UnPack, witnessLayout, versionWire, List.append_assoc,
    List.singleton_append, List.cons_append, List.nil_append,
    UnPackInt32_wire _ _ hv1 hv2, unpackVin_marker,
    List.length_nil, if_true, UnPackUint8_cons, e1, ne_eq, one_ne_zero, not_false_eq_true,
    unpackVin_wire _ _ hil hin, unpackVout_wire _ _ hol hout, Transaction.unpackTail,
    unpackWitnessLoop_wire _ _ hin, Transaction.unpackEnd,
    UnPackUint32_leBytes _ _ hlt]
  simp

/-- Decoding the layout without marker of a transaction that has an input and no
witness data restores it and stops at the end of the layout. -/
theorem UnPack_legacyLayout (t0 t : Transaction) (rest : List Byte) (hwf : t.WF)
    (hne : t.Vin ≠ []) (hw : t.HasWitness = false) :
    t0.UnPack (legacyLayout t ++ rest) = (t, none, rest) := by
  obtain ⟨hv1, hv2, hlt, hil, hol, hin, hout⟩ := hwf
  have hmap := map_noWitness_of_not_hasWitness t.Vin hw
  have hl : t.Vin.length ≠ 0 := by
    intro h0
    exact hne (List.length_eq_zero.mp h0)
  simp only [Transaction.UnPack, legacyLayout, versionWire, List.append_assoc,
    UnPackInt32_wire _ _ hv1 hv2, unpackVin_wire _ _ hil hin, hmap, if_neg hl,
    unpackVout_wire _ _ hol hout, Transaction.unpackTail, Transaction.unpackEnd,
    UnPackUint32_leBytes _ _ hlt]
  simp

/-- Decoding what `Pack` wrote for a transaction with at least one input,
followed by anything, restores the transaction and leaves what followed. -/
theorem UnPack_Pack (t0 t : Transaction) (w : List Byte) (rest : List Byte) (hwf : t.WF)
    (hne : t.Vin ≠ []) (hp : t.Pack [] = (none, w)) :
    t0.UnPack (w ++ rest) = (t, none, rest) := by
  cases hw : t.HasWitness with
  | true =>
    rw [Pack_eq_of_hasWitness t [] hw] at hp
    simp only [List.nil_append, Prod.mk.injEq, true_and] at hp
    rw [← hp]
    exact UnPack_witnessLayout t0 t rest hwf hw
  | false =>
    rw [Pack_eq_of_not_hasWitness t [] hw] at hp
    simp only [List.nil_append, Prod.mk.injEq, true_and] at hp
    rw [← hp]
    exact UnPack_legacyLayout t0 t rest hwf hne hw

/-! ## What the serialization without witness depends on -/

theorem vinWire_congr (a b : List TxIn)
    (h : a.map (fun v => (v.PrevOut, v.ScriptSig, v.Sequence)) =
      b.map (fun v => (v.PrevOut, v.ScriptSig, v.Sequence))) :
    vinWire a = vinWire b := by
  have hw : ∀ l : List TxIn, l.map TxIn.wire =
      (l.map (fun v => (v.PrevOut, v.ScriptSig, v.Sequence))).map
        (fun x => x.1.wire ++ x.2.1.wire ++ leBytes 4 x.2.2) := by
    intro l
    simp [List.map_map, Function.comp_def, TxIn.wire]
  have hlen : a.length = b.length := by
    have := congrArg List.length h
    simpa using this
  simp only [vinWire, hw, h, hlen]

theorem legacyLayout_congr (t1 t2 : Transaction) (hv : t1.Version = t2.Version)
    (hl : t1.LockTime = t2.LockTime) (ho : t1.Vout = t2.Vout)
    (hi : t1.Vin.map (fun v => (v.PrevOut, v.ScriptSig, v.Sequence)) =
      t2.Vin.map (fun v => (v.PrevOut, v.ScriptSig, v.Sequence))) :
    legacyLayout t1 = legacyLayout t2 := by
  simp only [legacyLayout, versionWire, hv, hl, ho, vinWire_congr _ _ hi]

theorem readLE_append (bs rest : List Byte) (k : Nat) (h : bs.length = k) :
    readLE (bs ++ rest) k = (leValue bs, none, rest) := by
  simp [readLE, ReadFull_append _ _ k h]

theorem UnPackInt32_append (ver rest : List Byte) (h : ver.length = 4) :
    UnPackInt32 (ver ++ rest) = (toSigned 32 (leValue ver), none, rest) := by
  simp only [UnPackInt32, readLE_append _ _ 4 h]

/-! ## The flag byte -/

theorem flag_other_bits (n : Nat) (h : n &&& 0xfe ≠ 0) : n ≠ 0 ∧ n ^^^ 1 ≠ 0 := by
  constructor
  · rintro rfl
    simp at h
  · intro hx
    have h1 : n = 1 := Nat.xor_eq_zero.mp hx
    subst h1
    exact h (by decide)

theorem unpackEnd_of_ne_zero (t : Transaction) (flags : Nat) (r : Reader)
    (h : flags ≠ 0) : t.unpackEnd flags r = (t, some Err.unknownOption, r) := by
  simp [Transaction.unpackEnd, h]

theorem unpackTail_of_other_bits (t : Transaction) (flags : Nat) (r : Reader)
    (h : flags &&& 0xfe ≠ 0) : (t.unpackTail flags r).2.1 ≠ none := by
  obtain ⟨h0, h1⟩ := flag_other_bits flags h
  unfold Transaction.unpackTail
  split_ifs with hb
  · rcases hw : unpackWitnessLoop t.Vin r with ⟨vin, _ | e, r2⟩
    · simp [unpackEnd_of_ne_zero _ _ _ h1]
    · simp
  · simp [unpackEnd_of_ne_zero _ _ _ h0]

theorem unpackVin_of_count_zero (r1 r2 : List Byte)
    (h : UnPackCompactSize r1 = (0, none, r2)) : unpackVin r1 = ([], none, r2) := by
  simp [unpackVin, h, unpackVinLoop]

/-! ## What an aborted decode leaves in the receiver -/

theorem readLE_err (r : Reader) (k : Nat) : (readLE r k).2.1 ≠ some Err.unknownOption := by
  unfold readLE ReadFull
  split_ifs <;> simp

theorem unpackEnd_Vout (t : Transaction) (flags : Nat) (r : Reader) :
    (t.unpackEnd flags r).1.Vout = t.Vout := by
  unfold Transaction.unpackEnd
  split_ifs
  · rfl
  · split <;> rfl

theorem unpackTail_Vout (t : Transaction) (flags : Nat) (r : Reader) :
    (t.unpackTail flags r).1.Vout = t.Vout := by
  unfold Transaction.unpackTail
  split_ifs
  · split
    · rfl
    · rw [unpackEnd_Vout]
  · rw [unpackEnd_Vout]

theorem unpackEnd_LockTime (t : Transaction) (flags : Nat) (r : Reader) :
    (t.unpackEnd flags r).1.LockTime = t.LockTime ∨
      (t.unpackEnd flags r).2.1 ≠ some Err.unknownOption := by
  unfold Transaction.unpackEnd
  split_ifs
  · exact Or.inl rfl
  · right
    have h := readLE_err r 4
    split
    · rename_i heq
      rw [show UnPackUint32 r = readLE r 4 from rfl] at heq
      rw [heq] at h
      exact h
    · simp

theorem unpackTail_LockTime (t : Transaction) (flags : Nat) (r : Reader) :
    (t.unpackTail flags r).1.LockTime = t.LockTime ∨
      (t.unpackTail flags r).2.1 ≠ some Err.unknownOption := by
  unfold Transaction.unpackTail
  split_ifs
  · split
    · exact Or.inl rfl
    · exact unpackEnd_LockTime _ _ _
  · exact unpackEnd_LockTime _ _ _

theorem UnPack_LockTime (t : Transaction) (r : Reader) :
    (t.UnPack r).1.LockTime = t.LockTime ∨
      (t.UnPack r).2.1 ≠ some Err.unknownOption := by
  unfold Transaction.UnPack
  split
  · exact Or.inl rfl
  · split
    · exact Or.inl rfl
    · dsimp only
      split_ifs
      · split
        · exact Or.inl rfl
        · split_ifs
          · split
            · exact Or.inl rfl
            · split
              · exact Or.inl rfl
              · exact unpackTail_LockTime _ _ _
          · exact unpackTail_LockTime _ _ _
      · split
        · exact Or.inl rfl
        · exact unpackTail_LockTime _ _ _

theorem unpackEnd_eq (t : Transaction) (flags : Nat) (r : Reader) (lt : Nat)
    (e : Option Err) (r2 : Reader) (h : UnPackUint32 r = (lt, e, r2)) :
    t.unpackEnd flags r =
      if flags ≠ 0 then (t, some Err.unknownOption, r)
      else ({ t with LockTime := lt }, e, r2) := by
  unfold Transaction.unpackEnd
  rw [h]
  split_ifs
  · rfl
  · cases e <;> rfl

/-! ## Hex text -/

theorem byteToHex_facts : ∀ x : Byte,
    hexPairToByte (NumberToHexChar ((x.val &&& 0xf0) >>> 4))
      (NumberToHexChar (x.val &&& 0x0f)) = x ∧
    (HexCharToNumber (NumberToHexChar ((x.val &&& 0xf0) >>> 4))).isSome = true ∧
    (HexCharToNumber (NumberToHexChar (x.val &&& 0x0f))).isSome = true ∧
    NumberToHexChar (x.val &&& 0x0f) ≠ 'x' ∧
    NumberToHexChar ((x.val &&& 0xf0) >>> 4) ∈ "0123456789abcdef".toList ∧
    NumberToHexChar (x.val &&& 0x0f) ∈ "0123456789abcdef".toList := by
  decide

theorem hexOfBytes_cons (x : Byte) (xs : List Byte) :
    hexOfBytes (x :: xs) = NumberToHexChar ((x.val &&& 0xf0) >>> 4) ::
      NumberToHexChar (x.val &&& 0x0f) :: hexOfBytes xs := by
  simp [hexOfBytes, byteToHex]

theorem length_hexOfBytes (l : List Byte) : (hexOfBytes l).length = 2 * l.length := by
  induction l with
  | nil => rfl
  | cons x xs ih => simp [hexOfBytes_cons, ih]; omega

theorem hexPairs_hexOfBytes (l : List Byte) : hexPairs (hexOfBytes l) = l := by
  induction l with
  | nil => rfl
  | cons x xs ih =>
    rw [hexOfBytes_cons]
    show hexPairToByte _ _ :: hexPairs (hexOfBytes xs) = x :: xs
    rw [ih, (byteToHex_facts x).1]

theorem all_hex_hexOfBytes (l : List Byte) :
    (hexOfBytes l).all (fun c => (HexCharToNumber c).isSome) = true := by
  induction l with
  | nil => rfl
  | cons x xs ih =>
    simp only [hexOfBytes_cons, List.all_cons, ih, (byteToHex_facts x).2.1,
      (byteToHex_facts x).2.2.1, Bool.and_self]

theorem lower_hexOfBytes (l : List Byte) :
    ∀ c ∈ hexOfBytes l, c ∈ "0123456789abcdef".toList := by
  induction l with
  | nil => intro c hc; cases hc
  | cons x xs ih =>
    intro c hc
    rw [hexOfBytes_cons] at hc
    rcases List.mem_cons.mp hc with h | hc
    · rw [h]; exact (byteToHex_facts x).2.2.2.2.1
    · rcases List.mem_cons.mp hc with h | hc
      · rw [h]; exact (byteToHex_facts x).2.2.2.2.2
      · exact ih c hc

theorem dropHexMark_hexOfBytes (l : List Byte) :
    dropHexMark (hexOfBytes l) = hexOfBytes l := by
  cases l with
  | nil => rfl
  | cons x xs =>
    rw [hexOfBytes_cons]
    unfold dropHexMark
    split
    · rename_i heq
      simp only [List.cons.injEq] at heq
      exact absurd heq.2.1 (byteToHex_facts x).2.2.2.1
    · rfl

theorem IsValidHex_hexOfBytes (l : List Byte) : IsValidHex (hexOfBytes l) = true := by
  simp [IsValidHex, dropHexMark_hexOfBytes, all_hex_hexOfBytes, length_hexOfBytes]

theorem setHexData_hexOfBytes (l : List Byte) : setHexData (hexOfBytes l) = l.reverse := by
  unfold setHexData
  have h : 2 * ((hexOfBytes l).length / 2) = (hexOfBytes l).length := by
    rw [length_hexOfBytes]; omega
  rw [h, List.take_length, hexPairs_hexOfBytes]

theorem SetHex_hexOfBytes (b : Baseblob) (l : List Byte) (hl : l ≠ []) :
    b.SetHex (hexOfBytes l) = (⟨l.reverse⟩, none) := by
  cases l with
  | nil => exact absurd rfl hl
  | cons x xs =>
    have hv := IsValidHex_hexOfBytes (x :: xs)
    have hd := setHexData_hexOfBytes (x :: xs)
    rw [hexOfBytes_cons] at hv hd
    have hx : ¬ (NumberToHexChar ((x.val &&& 0xf0) >>> 4) = '0' ∧
        NumberToHexChar (x.val &&& 0x0f) = 'x') := fun h => (byteToHex_facts x).2.2.2.1 h.2
    rw [hexOfBytes_cons]
    simp only [Baseblob.SetHex, hv, Bool.not_true, Bool.false_eq_true, if_false, if_neg hx,
      hd]

theorem Pack_ne_nil (t : Transaction) : t.Pack [] = (none, (t.Pack []).2) ∧
    (t.Pack []).2 ≠ [] := by
  have hv : versionWire t ≠ [] := by
    intro h
    have := congrArg List.length h
    simp [versionWire] at this
  cases hw : t.HasWitness with
  | true =>
    rw [Pack_eq_of_hasWitness t [] hw]
    refine ⟨rfl, ?_⟩
    simp only [witnessLayout, List.nil_append, List.append_assoc]
    exact List.append_ne_nil_of_left_ne_nil hv _
  | false =>
    rw [Pack_eq_of_not_hasWitness t [] hw]
    refine ⟨rfl, ?_⟩
    simp only [legacyLayout, List.nil_append, List.append_assoc]
    exact List.append_ne_nil_of_left_ne_nil hv _

theorem PackToHex_eq (t : Transaction) :
    t.PackToHex = (hexOfBytes (t.Pack []).2.reverse, none) := by
  have h := (Pack_ne_nil t).1
  unfold Transaction.PackToHex
  rw [h]
  rfl

theorem UnPackFromHex_PackToHex (t0 t : Transaction) :
    t0.UnPackFromHex t.PackToHex.1 =
      ((t0.UnPack (t.Pack []).2).1, (t0.UnPack (t.Pack []).2).2.1) := by
  have hne : (t.Pack []).2.reverse ≠ [] := by
    simpa using (Pack_ne_nil t).2
  rw [PackToHex_eq]
  simp only [Transaction.UnPackFromHex, SetHex_hexOfBytes _ _ hne, List.reverse_reverse,
    Baseblob.GetData]
  rcases h : t0.UnPack (t.Pack []).2 with ⟨t1, _ | e, r⟩ <;> rfl

/-! ## The claims -/

/-- C1, as stated, fails: the transaction with no input and one output of value 0
is well formed, `Pack` writes 19 bytes, `UnPack` of these bytes into a fresh
transaction succeeds, and packing the result does not give the 19 bytes again. -/
theorem C1_noInput_counterexample :
    noInputTx.WF ∧
    (Transaction.UnPack default (noInputTx.Pack []).2).2.1 = none ∧
    (Transaction.UnPack default (noInputTx.Pack []).2).1.Pack [] ≠ noInputTx.Pack [] := by
  decide

/-- C1, amended: for every transaction `t` with at least one input (its fields
within the ranges of their Go types), `Pack` writes some bytes `w`, `UnPack` of `w`
into a fresh transaction succeeds, reads all of `w`, and the transaction it
yields packs to exactly `w` again. -/
theorem C1_pack_unpack_roundtrip (t : Transaction) (hwf : t.WF) (hne : t.Vin ≠ []) :
    ∃ w t', t.Pack [] = (none, w) ∧
      Transaction.UnPack default w = (t', none, []) ∧ t'.Pack [] = (none, w) := by
  cases hw : t.HasWitness with
  | true =>
    refine ⟨witnessLayout t, t, ?_, ?_, ?_⟩
    · simpa using Pack_eq_of_hasWitness t [] hw
    · simpa using UnPack_witnessLayout default t [] hwf hw
    · simpa using Pack_eq_of_hasWitness t [] hw
  | false =>
    refine ⟨legacyLayout t, t, ?_, ?_, ?_⟩
    · simpa using Pack_eq_of_not_hasWitness t [] hw
    · simpa using UnPack_legacyLayout default t [] hwf hne hw
    · simpa using Pack_eq_of_not_hasWitness t [] hw

/-- C1, amended, at the coinbase-shaped transaction of the end-to-end scenario. -/
theorem C1_pack_unpack_roundtrip_witness :
    coinbaseTx.WF ∧ coinbaseTx.Vin ≠ [] ∧
    ∃ w t', coinbaseTx.Pack [] = (none, w) ∧
      Transaction.UnPack default w = (t', none, []) ∧ t'.Pack [] = (none, w) :=
  ⟨by decide, by decide, C1_pack_unpack_roundtrip coinbaseTx (by decide) (by decide)⟩

/-- C2: for every transaction with a non-empty witness stack on some input, `Pack`
writes exactly the version as 4 little-endian bytes, the byte `0x00`, the byte
`0x01`, the input list, the output list, one witness stack for every input in
input order, then lockTime as 4 little-endian bytes; an input with an empty
witness stack contributes the single byte `0x00` to the witness section. -/
theorem C2_witness_layout (t : Transaction) (w : Writer) (h : t.HasWitness = true) :
    t.Pack w = (none, w ++ (leBytes 4 (t.Version % 2 ^ 32).toNat ++ [0x00] ++ [0x01] ++
        (compactSizeBytes (t.Vin.length % 2 ^ 64) ++ (t.Vin.map TxIn.wire).flatten) ++
        (compactSizeBytes (t.Vout.length % 2 ^ 64) ++ (t.Vout.map TxOut.wire).flatten) ++
        (t.Vin.map (fun v => v.ScriptWitness.wire)).flatten ++
        leBytes 4 t.LockTime)) ∧
    ∀ v ∈ t.Vin, v.ScriptWitness.stack = [] → v.ScriptWitness.wire = [0x00] := by
  refine ⟨Pack_eq_of_hasWitness t w h, ?_⟩
  intro v _ hv
  simp only [ScriptWitness.wire, hv]
  decide

/-- C2 at `segwitTx`, whose second input has no witness data. -/
theorem C2_witness_layout_witness :
    segwitTx.HasWitness = true ∧
    (segwitTx.Pack []).2.take 6 = [0x02, 0x00, 0x00, 0x00, 0x00, 0x01] ∧
    (segwitTx.Pack []).2.length = 111 := by
  refine ⟨by decide, ?_, ?_⟩
  · rw [(C2_witness_layout segwitTx [] (by decide)).1]
    decide
  · rw [(C2_witness_layout segwitTx [] (by decide)).1]
    decide

/-- C3: for every transaction whose inputs all have empty witness stacks, `Pack`
writes exactly what `PackNoWitness` writes: version, input list, output list,
lockTime, with no marker, no flag and no witness section. -/
theorem C3_no_marker_without_witness (t : Transaction) (w : Writer)
    (h : t.HasWitness = false) :
    t.Pack w = t.PackNoWitness w ∧
    t.Pack w = (none, w ++ (leBytes 4 (t.Version % 2 ^ 32).toNat ++
        (compactSizeBytes (t.Vin.length % 2 ^ 64) ++ (t.Vin.map TxIn.wire).flatten) ++
        (compactSizeBytes (t.Vout.length % 2 ^ 64) ++ (t.Vout.map TxOut.wire).flatten) ++
        leBytes 4 t.LockTime)) := by
  refine ⟨?_, Pack_eq_of_not_hasWitness t w h⟩
  rw [Pack_eq_of_not_hasWitness t w h, PackNoWitness_eq]

/-- C3 at the coinbase-shaped transaction. -/
theorem C3_no_marker_without_witness_witness :
    coinbaseTx.HasWitness = false ∧ coinbaseTx.Pack [] = coinbaseTx.PackNoWitness [] :=
  ⟨by decide, (C3_no_marker_without_witness coinbaseTx [] (by decide)).1⟩

/-- C6: the transaction of the end-to-end scenario is serialized by `Pack` to
exactly the 60 bytes `01000000 01 (00 x 32) ffffffff 00 ffffffff 01
00f2052a01000000 00 00000000`. -/
theorem C6_end_to_end_bytes :
    coinbaseTx.Pack [] = (none,
      [0x01, 0x00, 0x00, 0x00, 0x01] ++ List.replicate 32 0x00 ++
      [0xff, 0xff, 0xff, 0xff, 0x00, 0xff, 0xff, 0xff, 0xff, 0x01,
       0x00, 0xf2, 0x05, 0x2a, 0x01, 0x00, 0x00, 0x00, 0x00,
       0x00, 0x00, 0x00, 0x00]) ∧
    (coinbaseTx.Pack []).2.length = 60 := by
  decide

/-- C8, on the code: with one byte unread where three are announced, `PubKey.UnPack`
returns no error and stores the byte followed by two zero bytes; with one byte
unread where four are asked for, `Baseblob.UnPack` returns no error and stores the
byte followed by three zero bytes. -/
theorem C8_short_read_is_padded :
    PubKey.UnPack default [0x03, 0xaa] = (⟨[0xaa, 0x00, 0x00]⟩, none, []) ∧
    Baseblob.UnPack default [0xaa] 4 = (⟨[0xaa, 0x00, 0x00, 0x00]⟩, none, []) := by
  decide

/-- C4: two transactions that agree on version, lockTime, the output list and on
the previous output, scriptSig and sequence of every input, in order, have the
same id, whatever their witness stacks; the id is the double hash of the bytes
`PackNoWitness` writes. The hash function is a parameter. -/
theorem C4_id_ignores_witness (Sha256 : List Byte → Uint256) (t1 t2 : Transaction)
    (hv : t1.Version = t2.Version) (hl : t1.LockTime = t2.LockTime)
    (ho : t1.Vout = t2.Vout)
    (hi : t1.Vin.map (fun v => (v.PrevOut, v.ScriptSig, v.Sequence)) =
      t2.Vin.map (fun v => (v.PrevOut, v.ScriptSig, v.Sequence))) :
    t1.CalcTrxId Sha256 = t2.CalcTrxId Sha256 ∧
    t1.CalcTrxId Sha256 = (Sha256 (Sha256 (t1.PackNoWitness []).2).val, none) := by
  have e := legacyLayout_congr t1 t2 hv hl ho hi
  simp only [Transaction.CalcTrxId, PackNoWitness_eq, List.nil_append, e, and_self]

/-- C4 at `segwitTx` and `segwitTxOther`, which differ in their witness stacks. -/
theorem C4_id_ignores_witness_witness :
    segwitTx.Vin ≠ segwitTxOther.Vin ∧
    segwitTx.CalcTrxId toyDigest = segwitTxOther.CalcTrxId toyDigest :=
  ⟨by decide,
    (C4_id_ignores_witness toyDigest segwitTx segwitTxOther (by decide) (by decide)
      (by decide) (by decide)).1⟩

/-- C9: `TxIn.Pack` writes exactly the previous output (32-byte hash, 4-byte
little-endian index), the scriptSig (compact-size length, bytes) and the sequence
(4 little-endian bytes), the same for every witness stack; `TxIn.UnPack` leaves the
receiver's witness stack as it was on every stream; and `UnPack` of what `Pack`
wrote for `x`, with integers in range, restores the previous output, scriptSig
and sequence of `x`. -/
theorem C9_txin_wire_omits_witness (x t : TxIn) (w r : List Byte) (sw : ScriptWitness) :
    x.Pack w = (none, w ++ (x.PrevOut.Hash.val ++ leBytes 4 x.PrevOut.N ++
        (compactSizeBytes (x.ScriptSig.data.length % 2 ^ 64) ++ x.ScriptSig.data) ++
        leBytes 4 x.Sequence)) ∧
    TxIn.Pack { x with ScriptWitness := sw } w = x.Pack w ∧
    (t.UnPack r).1.ScriptWitness = t.ScriptWitness ∧
    (x.PrevOut.N < 2 ^ 32 → x.ScriptSig.data.length < 2 ^ 63 → x.Sequence < 2 ^ 32 →
      t.UnPack (x.Pack []).2 =
        ({ PrevOut := x.PrevOut, ScriptSig := x.ScriptSig, Sequence := x.Sequence,
           ScriptWitness := t.ScriptWitness }, none, [])) := by
  refine ⟨?_, ?_, ?_, ?_⟩
  · simp [TxIn.wire, OutPoint.wire, Script.wire]
  · simp [TxIn.wire]
  · unfold TxIn.UnPack
    split
    · rfl
    · split
      · rfl
      · split <;> rfl
  · intro hn hs hq
    have := TxIn_UnPack_fields t x [] hn hs hq
    simpa using this

/-- C9 at the first input of `segwitTx`, unpacked into its second input. -/
theorem C9_txin_wire_omits_witness_witness :
    (TxIn.UnPack (segwitTx.Vin.getD 1 default)
        (TxIn.Pack (segwitTx.Vin.getD 0 default) []).2).1.PrevOut =
      (segwitTx.Vin.getD 0 default).PrevOut := by
  have h := (C9_txin_wire_omits_witness (segwitTx.Vin.getD 0 default)
    (segwitTx.Vin.getD 1 default) [] [] default).2.2.2 (by decide) (by decide) (by decide)
  rw [h]

/-- C5: on every stream whose first input count decodes to 0 and whose following
flag byte has a bit other than bit 0 set, `UnPack` does not return success; when
the flag byte is `0x03` and an input list, an output list and one witness stack
for every input follow, `UnPack` fails with the unknown-transaction-option error
after the witness stacks, leaving what follows them unread and lockTime as it
was. -/
theorem C5_unknown_flag_rejected (t0 : Transaction) (ver r1 rest : List Byte) (f : Byte)
    (hver : ver.length = 4) (hcount : UnPackCompactSize r1 = (0, none, f :: rest))
    (hf : f.val &&& 0xfe ≠ 0) :
    (t0.UnPack (ver ++ r1)).2.1 ≠ none ∧
    (f = 0x03 → ∀ (vin : List TxIn) (vout : List TxOut) (tail : List Byte),
      vin.length < 2 ^ 63 → (∀ v ∈ vin, v.WF) →
      vout.length < 2 ^ 63 → (∀ v ∈ vout, v.WF) →
      rest = vinWire vin ++ voutWire vout ++ witnessSectionWire vin ++ tail →
      t0.UnPack (ver ++ r1) =
        ({ Vin := vin, Vout := vout, Version := toSigned 32 (leValue ver),
           LockTime := t0.LockTime }, some Err.unknownOption, tail)) := by
  have hvin := unpackVin_of_count_zero r1 (f :: rest) hcount
  have hf0 : f.val ≠ 0 := (flag_other_bits f.val hf).1
  constructor
  · simp only [Transaction.UnPack, UnPackInt32_append _ _ hver, hvin, List.length_nil,
      if_true, UnPackUint8_cons, ne_eq, hf0, not_false_eq_true]
    rcases h1 : unpackVin rest with ⟨vin, _ | e, r2⟩
    · dsimp only
      rcases h2 : unpackVout r2 with ⟨vout, _ | e, r3⟩
      · exact unpackTail_of_other_bits _ _ _ hf
      · simp
    · simp
  · intro h3 vin vout tail hil hin hol hout hrest
    subst h3
    subst hrest
    have e3 : ((0x03 : Byte) : Nat) = 3 := rfl
    simp only [Transaction.UnPack, UnPackInt32_append _ _ hver, hvin, List.length_nil,
      if_true, UnPackUint8_cons, e3, ne_eq, OfNat.ofNat_ne_zero, not_false_eq_true,
      List.append_assoc, unpackVin_wire _ _ hil hin, unpackVout_wire _ _ hol hout,
      Transaction.unpackTail, unpackWitnessLoop_wire _ _ hin]
    have hb : (3 : Nat) &&& 1 = 1 := by decide
    have hx : (3 : Nat) ^^^ 1 ≠ 0 := by decide
    simp only [hb, if_true, unpackEnd_of_ne_zero _ _ _ hx]

/-- C5 at a stream with flag byte `0x03`, the lists of the coinbase-shaped
transaction, one witness stack and four more bytes, decoded into `segwitTx`. -/
theorem C5_unknown_flag_rejected_witness :
    segwitTx.UnPack ([0x01, 0x00, 0x00, 0x00] ++ (0x00 :: 0x03 ::
        (vinWire coinbaseTx.Vin ++ voutWire coinbaseTx.Vout ++
          witnessSectionWire coinbaseTx.Vin ++ [0x09, 0x09, 0x09, 0x09]))) =
      ({ Vin := coinbaseTx.Vin, Vout := coinbaseTx.Vout,
         Version := toSigned 32 (leValue [0x01, 0x00, 0x00, 0x00]),
         LockTime := segwitTx.LockTime }, some Err.unknownOption,
        [0x09, 0x09, 0x09, 0x09]) :=
  (C5_unknown_flag_rejected segwitTx [0x01, 0x00, 0x00, 0x00] _ _ 0x03 (by decide)
    (by decide) (by decide)).2 rfl coinbaseTx.Vin coinbaseTx.Vout
    [0x09, 0x09, 0x09, 0x09] (by decide) (by decide) (by decide) (by decide) rfl

/-- C7, as stated, fails: decoding a stream that ends before lockTime into the
coinbase-shaped transaction returns a short-read error and leaves other values in
Version, Vin and Vout; decoding a stream with flag byte `0x02` into it returns the
unknown-transaction-option error and leaves other values in Version, Vin and
Vout. -/
theorem C7_receiver_overwritten_counterexample :
    (coinbaseTx.UnPack truncatedStream).2.1 = some Err.shortRead ∧
    (coinbaseTx.UnPack truncatedStream).1.Version ≠ coinbaseTx.Version ∧
    (coinbaseTx.UnPack truncatedStream).1.Vin ≠ coinbaseTx.Vin ∧
    (coinbaseTx.UnPack truncatedStream).1.Vout ≠ coinbaseTx.Vout ∧
    (coinbaseTx.UnPack flagTwoStream).2.1 = some Err.unknownOption ∧
    (coinbaseTx.UnPack flagTwoStream).1.Version ≠ coinbaseTx.Version ∧
    (coinbaseTx.UnPack flagTwoStream).1.Vin ≠ coinbaseTx.Vin ∧
    (coinbaseTx.UnPack flagTwoStream).1.Vout ≠ coinbaseTx.Vout := by
  decide

/-- C7, amended: when `UnPack` returns an error, the receiver is the receiver
before the call with exactly the assignments made before the failing step. With
the results of the reads named after the stream, each of the twelve steps at
which the decode can fail gives the receiver, the error and the reader in full:
the version read, the first input list, then either the output list and lockTime,
or the flag byte, the input list, the output list, the witness stacks, the check
of the flag bits and lockTime. Version is what the version read returned; Vin and
Vout are replaced only by lists decoded in full (Vin then by the inputs with the
witness stacks read so far); lockTime is replaced only by the lockTime read, so on
the unknown-transaction-option error it is what it was before the call. -/
theorem C7_abort_keeps_assignments (t : Transaction) (r : Reader) (e : Err)
    (ver : Int) (e1 : Option Err) (r1 : Reader) (hver : UnPackInt32 r = (ver, e1, r1))
    (vin : List TxIn) (e2 : Option Err) (r2 : Reader)
    (hvin : unpackVin r1 = (vin, e2, r2))
    (vout : List TxOut) (e3 : Option Err) (r3 : Reader)
    (hvout : unpackVout r2 = (vout, e3, r3))
    (lt : Nat) (e4 : Option Err) (r4 : Reader) (hlt : UnPackUint32 r3 = (lt, e4, r4))
    (f : Nat) (e5 : Option Err) (q1 : Reader) (hflag : UnPackUint8 r2 = (f, e5, q1))
    (lt0 : Nat) (e6 : Option Err) (q2 : Reader) (hlt0 : UnPackUint32 q1 = (lt0, e6, q2))
    (vin2 : List TxIn) (e7 : Option Err) (q3 : Reader)
    (hvin2 : unpackVin q1 = (vin2, e7, q3))
    (vout2 : List TxOut) (e8 : Option Err) (q4 : Reader)
    (hvout2 : unpackVout q3 = (vout2, e8, q4))
    (vin3 : List TxIn) (e9 : Option Err) (q5 : Reader)
    (hwit : unpackWitnessLoop vin2 q4 = (vin3, e9, q5))
    (lt1 : Nat) (e10 : Option Err) (q6 : Reader) (hlt1 : UnPackUint32 q5 = (lt1, e10, q6))
    (herr : (t.UnPack r).2.1 = some e) :
    ((e1 = some e ∧
        t.UnPack r = ({ t with Version := ver }, some e, r1)) ∨
     (e1 = none ∧ e2 = some e ∧
        t.UnPack r = ({ t with Version := ver }, some e, r2)) ∨
     (e1 = none ∧ e2 = none ∧ vin ≠ [] ∧ e3 = some e ∧
        t.UnPack r = ({ t with Version := ver, Vin := vin }, some e, r3)) ∨
     (e1 = none ∧ e2 = none ∧ vin ≠ [] ∧ e3 = none ∧ e4 = some e ∧
        t.UnPack r =
          ({ Vin := vin, Vout := vout, Version := ver, LockTime := lt }, some e, r4)) ∨
     (e1 = none ∧ e2 = none ∧ vin = [] ∧ e5 = some e ∧
        t.UnPack r = ({ t with Version := ver, Vin := [] }, some e, q1)) ∨
     (e1 = none ∧ e2 = none ∧ vin = [] ∧ e5 = none ∧ f = 0 ∧ e6 = some e ∧
        t.UnPack r =
          ({ Vin := [], Vout := t.Vout, Version := ver, LockTime := lt0 }, some e, q2)) ∨
     (e1 = none ∧ e2 = none ∧ vin = [] ∧ e5 = none ∧ f ≠ 0 ∧ e7 = some e ∧
        t.UnPack r = ({ t with Version := ver, Vin := [] }, some e, q3)) ∨
     (e1 = none ∧ e2 = none ∧ vin = [] ∧ e5 = none ∧ f ≠ 0 ∧ e7 = none ∧ e8 = some e ∧
        t.UnPack r = ({ t with Version := ver, Vin := vin2 }, some e, q4)) ∨
     (e1 = none ∧ e2 = none ∧ vin = [] ∧ e5 = none ∧ f ≠ 0 ∧ e7 = none ∧ e8 = none ∧
        f &&& 1 = 1 ∧ e9 = some e ∧
        t.UnPack r =
          ({ Vin := vin3, Vout := vout2, Version := ver, LockTime := t.LockTime },
            some e, q5)) ∨
     (e1 = none ∧ e2 = none ∧ vin = [] ∧ e5 = none ∧ f ≠ 0 ∧ e7 = none ∧ e8 = none ∧
        f &&& 1 = 1 ∧ e9 = none ∧ f ^^^ 1 ≠ 0 ∧ e = Err.unknownOption ∧
        t.UnPack r =
          ({ Vin := vin3, Vout := vout2, Version := ver, LockTime := t.LockTime },
            some Err.unknownOption, q5)) ∨
     (e1 = none ∧ e2 = none ∧ vin = [] ∧ e5 = none ∧ f ≠ 0 ∧ e7 = none ∧ e8 = none ∧
        f &&& 1 = 1 ∧ e9 = none ∧ f ^^^ 1 = 0 ∧ e10 = some e ∧
        t.UnPack r =
          ({ Vin := vin3, Vout := vout2, Version := ver, LockTime := lt1 }, some e, q6)) ∨
     (e1 = none ∧ e2 = none ∧ vin = [] ∧ e5 = none ∧ f ≠ 0 ∧ e7 = none ∧ e8 = none ∧
        f &&& 1 ≠ 1 ∧ e = Err.unknownOption ∧
        t.UnPack r =
          ({ Vin := vin2, Vout := vout2, Version := ver, LockTime := t.LockTime },
            some Err.unknownOption, q4))) ∧
    (e = Err.unknownOption → (t.UnPack r).1.LockTime = t.LockTime) := by
  refine ⟨?_, ?_⟩
  swap
  · intro he
    rcases UnPack_LockTime t r with h1 | h1
    · exact h1
    · rw [herr, he] at h1
      exact absurd rfl h1
  simp only [Transaction.UnPack, hver] at herr ⊢
  cases e1 with
  | some a1 =>
    simp only [Option.some.injEq] at herr
    subst herr
    exact Or.inl (by simp_all)
  | none =>
    right
    simp only [hvin] at herr ⊢
    cases e2 with
    | some a2 =>
      simp only [Option.some.injEq] at herr
      subst herr
      exact Or.inl (by simp_all)
    | none =>
      right
      by_cases hv : vin = []
      · subst hv
        right
        right
        simp only [List.length_nil, if_true, hflag] at herr ⊢
        cases e5 with
        | some a5 =>
          simp only [Option.some.injEq] at herr
          subst herr
          exact Or.inl (by simp_all)
        | none =>
          right
          by_cases hf : f = 0
          · subst hf
            have hb : ¬ ((0 : Nat) &&& 1 = 1) := by decide
            simp only [ne_eq, not_true_eq_false, if_false, Transaction.unpackTail, if_neg hb,
              unpackEnd_eq _ _ _ _ _ _ hlt0] at herr ⊢
            cases e6 with
            | some a6 =>
              simp only [Option.some.injEq] at herr
              subst herr
              exact Or.inl (by simp_all)
            | none => simp at herr
          · right
            simp only [ne_eq, hf, not_false_eq_true, if_true, hvin2] at herr ⊢
            cases e7 with
            | some a7 =>
              simp only [Option.some.injEq] at herr
              subst herr
              exact Or.inl (by simp_all)
            | none =>
              right
              simp only [hvout2] at herr ⊢
              cases e8 with
              | some a8 =>
                simp only [Option.some.injEq] at herr
                subst herr
                exact Or.inl (by simp_all)
              | none =>
                right
                by_cases hb : f &&& 1 = 1
                · simp only [Transaction.unpackTail, if_pos hb, hwit] at herr ⊢
                  cases e9 with
                  | some a9 =>
                    simp only [Option.some.injEq] at herr
                    subst herr
                    exact Or.inl (by simp_all)
                  | none =>
                    right
                    by_cases hx : f ^^^ 1 = 0
                    · right
                      simp only [unpackEnd_eq _ _ _ _ _ _ hlt1, ne_eq, hx, not_true_eq_false,
                        if_false] at herr ⊢
                      cases e10 with
                      | some a10 =>
                        simp only [Option.some.injEq] at herr
                        subst herr
                        exact Or.inl (by simp_all)
                      | none => simp at herr
                    · simp only [unpackEnd_of_ne_zero _ _ _ hx, Option.some.injEq] at herr ⊢
                      subst herr
                      exact Or.inl (by simp_all)
                · right
                  right
                  right
                  simp only [Transaction.unpackTail, if_neg hb,
                    unpackEnd_of_ne_zero _ _ _ hf, Option.some.injEq] at herr ⊢
                  subst herr
                  simp_all
      · have hl : ¬ vin.length = 0 := fun h0 => hv (List.length_eq_zero.mp h0)
        have hb : ¬ ((0 : Nat) &&& 1 = 1) := by decide
        simp only [if_neg hl, hvout] at herr ⊢
        cases e3 with
        | some a3 =>
          simp only [Option.some.injEq] at herr
          subst herr
          exact Or.inl (by simp_all)
        | none =>
          right
          simp only [Transaction.unpackTail, if_neg hb, unpackEnd_eq _ _ _ _ _ _ hlt, ne_eq,
            not_true_eq_false, if_false] at herr ⊢
          cases e4 with
          | some a4 =>
            simp only [Option.some.injEq] at herr
            subst herr
            exact Or.inl (by simp_all)
          | none => simp at herr
/-- C7, amended, at `segwitTx` and the stream with flag byte `0x02`: the decode
fails at the check of the flag bits, after both lists were decoded and assigned;
lockTime is what it was. -/
theorem C7_abort_keeps_assignments_witness :
    segwitTx.UnPack flagTwoStream =
      ({ Vin := [], Vout := [], Version := 2, LockTime := 7 },
        some Err.unknownOption, []) ∧
    (segwitTx.UnPack flagTwoStream).1.LockTime = segwitTx.LockTime := by
  have h := C7_abort_keeps_assignments segwitTx flagTwoStream Err.unknownOption
    2 none [0x00, 0x02, 0x00, 0x00] (by decide)
    [] none [0x02, 0x00, 0x00] (by decide)
    [] (some Err.shortRead) [] (by decide)
    0 (some Err.shortRead) [] (by decide)
    2 none [0x00, 0x00] (by decide)
    0 (some Err.shortRead) [] (by decide)
    [] none [0x00] (by decide)
    [] none [] (by decide)
    [] none [] (by decide)
    0 (some Err.shortRead) [] (by decide)
    (by decide)
  refine ⟨?_, h.2 rfl⟩
  rcases h.1 with h1 | h1 | h1 | h1 | h1 | h1 | h1 | h1 | h1 | h1 | h1 | h1
  · exact absurd h1.1 (by decide)
  · exact absurd h1.2.1 (by decide)
  · exact absurd rfl h1.2.2.1
  · exact absurd rfl h1.2.2.1
  · exact absurd h1.2.2.2.1 (by decide)
  · exact absurd h1.2.2.2.2.1 (by decide)
  · exact absurd h1.2.2.2.2.2.1 (by decide)
  · exact absurd h1.2.2.2.2.2.2.1 (by decide)
  · exact absurd h1.2.2.2.2.2.2.2.1 (by decide)
  · exact absurd h1.2.2.2.2.2.2.2.1 (by decide)
  · exact absurd h1.2.2.2.2.2.2.2.1 (by decide)
  · exact h1.2.2.2.2.2.2.2.2.2

/-- C10, as stated, fails: for the transaction with no input and one output of
value 1, `UnPackFromHex` applied to the text of `PackToHex` does not succeed; it
returns a short-read error. -/
theorem C10_unpack_from_hex_counterexample :
    noInputTxOne.WF ∧ noInputTxOne.PackToHex.2 = none ∧
    (Transaction.UnPackFromHex default noInputTxOne.PackToHex.1).2 =
      some Err.shortRead := by
  decide

/-- C10, amended: for every transaction `t`, `PackToHex` returns the lower-case hex
text of the bytes `Pack` writes, taken in reverse byte order over the whole
serialization, two characters a byte; `UnPackFromHex` applied to this text
returns exactly the transaction and the error that `UnPack` returns on the bytes of
`Pack`; and it succeeds and yields `t` when `t` has at least one input and its
fields are within the ranges of their Go types. -/
theorem C10_hex_forms_compose (t0 t : Transaction) :
    t.PackToHex = (hexOfBytes (t.Pack []).2.reverse, none) ∧
    (∀ c ∈ t.PackToHex.1, c ∈ "0123456789abcdef".toList) ∧
    t.PackToHex.1.length = 2 * (t.Pack []).2.length ∧
    t0.UnPackFromHex t.PackToHex.1 =
      ((t0.UnPack (t.Pack []).2).1, (t0.UnPack (t.Pack []).2).2.1) ∧
    (t.WF → t.Vin ≠ [] → t0.UnPackFromHex t.PackToHex.1 = (t, none)) := by
  refine ⟨PackToHex_eq t, ?_, ?_, UnPackFromHex_PackToHex t0 t, ?_⟩
  · rw [PackToHex_eq]
    exact lower_hexOfBytes _
  · rw [PackToHex_eq]
    simp [length_hexOfBytes]
  · intro hwf hne
    rw [UnPackFromHex_PackToHex]
    have h := UnPack_Pack t0 t (t.Pack []).2 [] hwf hne (Pack_ne_nil t).1
    rw [List.append_nil] at h
    rw [h]

/-- C10, amended, at the coinbase-shaped transaction, with its hex text. -/
theorem C10_hex_forms_compose_witness :
    coinbaseTx.PackToHex.1 =
      ("0000000000000000012a05f20001ffffffff00ffffffff00000000000000000000000000" ++
       "000000000000000000000000000000000000000100000001").toList ∧
    Transaction.UnPackFromHex default coinbaseTx.PackToHex.1 = (coinbaseTx, none) :=
  ⟨by decide,
    (C10_hex_forms_compose default coinbaseTx).2.2.2.2 (by decide) (by decide)⟩

/-! ## The blob utility and the key-material record: lemmas -/

theorem hexOfBytes_append (a b : List Byte) :
    hexOfBytes (a ++ b) = hexOfBytes a ++ hexOfBytes b := by
  induction a with
  | nil => rfl
  | cons x xs ih => simp [hexOfBytes, ih]

theorem GetHex_eq (d : List Byte) : (Baseblob.mk d).GetHex = hexOfBytes d.reverse := rfl

theorem GetLen_values (c : Byte) :
    (GetLen c = 33 ∧ (c = 0x02 ∨ c = 0x03)) ∨
    (GetLen c = 65 ∧ (c = 0x04 ∨ c = 0x06 ∨ c = 0x07)) ∨
    (GetLen c = 0 ∧ c ≠ 0x02 ∧ c ≠ 0x03 ∧ c ≠ 0x04 ∧ c ≠ 0x06 ∧ c ≠ 0x07) := by
  revert c
  decide

theorem ValidSize_eq_rule (d : List Byte) : ValidSize d = (decide (sizeRule d), none) := by
  cases d with
  | nil => rfl
  | cons c cs =>
    have hv : ValidSize (c :: cs) = (decide (GetLen c = (c :: cs).length), none) := by
      simp [ValidSize]
    rw [hv]
    congr 1
    apply decide_eq_decide.mpr
    simp only [sizeRule, List.length_cons, List.getElem?_cons_zero, Option.some.injEq]
    rcases GetLen_values c with ⟨h, h1⟩ | ⟨h, h1⟩ | ⟨h, h2, h3, h4, h6, h7⟩
    · rw [h]
      constructor
      · intro hl
        exact Or.inl ⟨by omega, h1⟩
      · rintro (⟨hl, -⟩ | ⟨hl, h4 | h6 | h7⟩)
        · omega
        all_goals (rcases h1 with h1 | h1 <;> simp [h1] at *)
    · rw [h]
      constructor
      · intro hl
        exact Or.inr ⟨by omega, h1⟩
      · rintro (⟨hl, h2 | h3⟩ | ⟨hl, -⟩)
        · rcases h1 with h1 | h1 | h1 <;> simp [h1] at *
        · rcases h1 with h1 | h1 | h1 <;> simp [h1] at *
        · omega
    · rw [h]
      constructor
      · intro hl
        omega
      · rintro (⟨-, h | h⟩ | ⟨-, h | h | h⟩) <;> contradiction

theorem SetPubKeyData_of_rule (p : PubKey) (b : List Byte) (h : sizeRule b) :
    p.SetPubKeyData b = (⟨b⟩, none) := by
  simp [PubKey.SetPubKeyData, ValidSize_eq_rule, h]

theorem SetPubKeyData_of_not_rule (p : PubKey) (b : List Byte) (h : ¬ sizeRule b) :
    p.SetPubKeyData b = (p, some Err.invalidSize) := by
  simp [PubKey.SetPubKeyData, ValidSize_eq_rule, h]

theorem GetPubKeyData_of_rule (p : PubKey) (h : sizeRule p.data) :
    p.GetPubKeyData = (p.data, none) := by
  simp [PubKey.GetPubKeyData, ValidSize_eq_rule, h]

theorem GetPubKeyData_of_not_rule (p : PubKey) (h : ¬ sizeRule p.data) :
    p.GetPubKeyData = ([], some Err.invalidSize) := by
  simp [PubKey.GetPubKeyData, ValidSize_eq_rule, h]

/-! ## The claims on the blob utility and the key-material record -/

/-- C11: for every byte sequence `d`, `GetHex` on data `d` is a hex text of
`2 * len d` characters in which the first byte of `d` supplies the last two
characters and the last byte the first two (`GetHex` of `[0x01, 0x02, 0x03]` is
`"030201"`); for every non-empty `d`, `SetHex` of that text succeeds and sets the
data back to exactly `d` (`SetHex "030201"` gives `[0x01, 0x02, 0x03]`). -/
theorem C11_hex_reversal_roundtrip (b : Baseblob) (d : List Byte) :
    (Baseblob.mk d).GetHex.length = 2 * d.length ∧
    (∀ x xs, d = x :: xs → (Baseblob.mk d).GetHex = (Baseblob.mk xs).GetHex ++ byteToHex x) ∧
    (∀ xs y, d = xs ++ [y] → (Baseblob.mk d).GetHex = byteToHex y ++ (Baseblob.mk xs).GetHex) ∧
    (Baseblob.mk [0x01, 0x02, 0x03]).GetHex = "030201".toList ∧
    (d ≠ [] → b.SetHex (Baseblob.mk d).GetHex = (⟨d⟩, none)) ∧
    b.SetHex "030201".toList = (⟨[0x01, 0x02, 0x03]⟩, none) := by
  refine ⟨?_, ?_, ?_, by decide, ?_, ?_⟩
  · rw [GetHex_eq, length_hexOfBytes, List.length_reverse]
  · intro x xs h
    subst h
    simp only [GetHex_eq, List.reverse_cons, hexOfBytes_append]
    simp [hexOfBytes]
  · intro xs y h
    subst h
    simp only [GetHex_eq, List.reverse_append, List.reverse_cons, List.reverse_nil,
      List.nil_append, List.singleton_append]
    rfl
  · intro hd
    have hr : d.reverse ≠ [] := by simpa using hd
    rw [GetHex_eq, SetHex_hexOfBytes b _ hr, List.reverse_reverse]
  · have h := SetHex_hexOfBytes b [0x03, 0x02, 0x01] (by decide)
    have e : hexOfBytes [0x03, 0x02, 0x01] = "030201".toList := by decide
    rw [e] at h
    exact h

/-- C11 at the bytes `[0xde, 0xad, 0xbe, 0xef]`. -/
theorem C11_hex_reversal_roundtrip_witness :
    (Baseblob.mk [0xde, 0xad, 0xbe, 0xef]).GetHex = "efbeadde".toList ∧
    Baseblob.SetHex default "efbeadde".toList = (⟨[0xde, 0xad, 0xbe, 0xef]⟩, none) := by
  have e : (Baseblob.mk [0xde, 0xad, 0xbe, 0xef]).GetHex = "efbeadde".toList := by decide
  refine ⟨e, ?_⟩
  rw [← e]
  exact (C11_hex_reversal_roundtrip default [0xde, 0xad, 0xbe, 0xef]).2.2.2.2.1 (by decide)

/-- C12: for every byte sequence `d`, `ValidSize d` is true exactly when `d` has 33
bytes and starts with `0x02` or `0x03`, or has 65 bytes and starts with `0x04`,
`0x06` or `0x07`, and it never indexes out of range; the empty sequence, a 33-byte
blob starting `0x05` and every blob of length 10 are invalid. -/
theorem C12_valid_size_rule (d : List Byte) :
    ((ValidSize d).1 = true ↔
      (d.length = 33 ∧ (d[0]? = some 0x02 ∨ d[0]? = some 0x03)) ∨
      (d.length = 65 ∧ (d[0]? = some 0x04 ∨ d[0]? = some 0x06 ∨ d[0]? = some 0x07))) ∧
    (ValidSize d).2 = none ∧
    ValidSize [] = (false, none) ∧
    (d.length = 33 → d[0]? = some 0x05 → (ValidSize d).1 = false) ∧
    (d.length = 10 → (ValidSize d).1 = false) := by
  have hr := ValidSize_eq_rule d
  refine ⟨?_, ?_, rfl, ?_, ?_⟩
  · rw [hr]
    simp [sizeRule]
  · rw [hr]
  · intro hl h5
    rw [hr]
    simp [sizeRule, hl, h5]
  · intro hl
    rw [hr]
    simp [sizeRule, hl]

/-- C12 at a blob of ten bytes `0x02` and at a 33-byte blob starting `0x05`. -/
theorem C12_valid_size_rule_witness :
    (ValidSize (List.replicate 10 0x02)).1 = false ∧
    (ValidSize (0x05 :: List.replicate 32 0x00)).1 = false :=
  ⟨(C12_valid_size_rule (List.replicate 10 0x02)).2.2.2.2 (by decide),
   (C12_valid_size_rule (0x05 :: List.replicate 32 0x00)).2.2.2.1 (by decide) (by decide)⟩

/-- C13: for every record `p` and byte sequence `b`, `SetPubKeyData b` returns no
error exactly when `b` satisfies the size rule, and `p` then holds exactly `b`;
otherwise it returns the invalid-size error and `p` holds what it held before, so a
freshly created record still holds nothing. -/
theorem C13_set_pubkey_data (p : PubKey) (b : List Byte) :
    ((p.SetPubKeyData b).2 = none ↔ sizeRule b) ∧
    (sizeRule b → p.SetPubKeyData b = (⟨b⟩, none)) ∧
    (¬ sizeRule b → p.SetPubKeyData b = (p, some Err.invalidSize)) ∧
    (¬ sizeRule b → (PubKey.SetPubKeyData default b).1.data = []) := by
  refine ⟨?_, SetPubKeyData_of_rule p b, SetPubKeyData_of_not_rule p b, ?_⟩
  · by_cases h : sizeRule b
    · simp [SetPubKeyData_of_rule p b h, h]
    · simp [SetPubKeyData_of_not_rule p b h, h]
  · intro h
    rw [SetPubKeyData_of_not_rule _ b h]
    rfl

/-- C13 at a valid compressed key and at a blob of ten bytes. -/
theorem C13_set_pubkey_data_witness :
    PubKey.SetPubKeyData default (0x02 :: List.replicate 32 0x11) =
      (⟨0x02 :: List.replicate 32 0x11⟩, none) ∧
    PubKey.SetPubKeyData ⟨0x02 :: List.replicate 32 0x11⟩ (List.replicate 10 0x02) =
      (⟨0x02 :: List.replicate 32 0x11⟩, some Err.invalidSize) :=
  ⟨(C13_set_pubkey_data default (0x02 :: List.replicate 32 0x11)).2.1 (by decide),
   (C13_set_pubkey_data ⟨0x02 :: List.replicate 32 0x11⟩
      (List.replicate 10 0x02)).2.2.1 (by decide)⟩

/-- C14: for every record `p`, whatever put its bytes there, `GetPubKeyData` and
`CalcKeyIDBytes` return a value without error only when the held bytes satisfy
the size rule, `GetPubKeyData` then returning exactly the held bytes and
`CalcKeyIDBytes` their hash; when the held bytes do not satisfy it, both return
the invalid-size error and no bytes. The hash function is a parameter. -/
theorem C14_accessors_revalidate (Hash160 : List Byte → List Byte) (p : PubKey) :
    (p.GetPubKeyData.2 = none ↔ sizeRule p.data) ∧
    ((p.CalcKeyIDBytes Hash160).2 = none ↔ sizeRule p.data) ∧
    (sizeRule p.data → p.GetPubKeyData = (p.data, none) ∧
      p.CalcKeyIDBytes Hash160 = (Hash160 p.data, none)) ∧
    (¬ sizeRule p.data → p.GetPubKeyData = ([], some Err.invalidSize) ∧
      p.CalcKeyIDBytes Hash160 = ([], some Err.invalidSize)) := by
  by_cases h : sizeRule p.data
  · simp [PubKey.GetPubKeyData, PubKey.CalcKeyIDBytes, ValidSize_eq_rule, h]
  · simp [PubKey.GetPubKeyData, PubKey.CalcKeyIDBytes, ValidSize_eq_rule, h]

/-- C14 at the record that `UnPack` fills from the stream `[0x01, 0x05]`: it holds
the single byte `0x05`, and `GetPubKeyData` returns the invalid-size error. -/
theorem C14_accessors_revalidate_witness :
    (PubKey.UnPack default [0x01, 0x05]).1 = ⟨[0x05]⟩ ∧
    (PubKey.UnPack default [0x01, 0x05]).1.GetPubKeyData = ([], some Err.invalidSize) :=
  ⟨by decide,
   ((C14_accessors_revalidate id (PubKey.UnPack default [0x01, 0x05]).1).2.2.2
      (by decide)).1⟩

theorem set_zero_replicate (n : Nat) (x : Byte) :
    (List.replicate (n + 1) (0 : Byte)).set 0 x = x :: List.replicate n 0 := rfl

theorem copyBytes_full (dst src : List Byte) (h : src.length = dst.length) :
    copyBytes dst src = src := by
  unfold copyBytes
  rw [List.take_of_length_le (by omega), List.drop_eq_nil_of_le (by omega), List.append_nil]

theorem GetUnCompressPubKey_eq (p : List Byte) (h : p.length = 64) :
    GetUnCompressPubKey p = (some ⟨0x04 :: p⟩, none) := by
  have hrule : sizeRule (0x04 :: p) := by
    right
    exact ⟨by simp [h], Or.inl (by simp)⟩
  have ht : p.take 64 = p := by rw [← h, List.take_length]
  have hc : copyBytes (List.replicate 64 0) p = p := copyBytes_full _ _ (by simp [h])
  unfold GetUnCompressPubKey
  rw [if_neg (by simp [h])]
  simp only [set_zero_replicate 64, List.take_succ_cons, List.take_zero, List.drop_succ_cons,
    List.drop_zero, ht, hc, List.singleton_append, SetPubKeyData_of_rule _ _ hrule]

theorem GetCompressPubKey_eq (p : List Byte) (h : p.length = 64) :
    GetCompressPubKey p =
      (some ⟨(if (p.getD 63 0).val % 2 = 0 then 0x02 else 0x03) :: p.take 32⟩, none) := by
  have hl : (p.take 32).length = 32 := by rw [List.length_take]; omega
  have hc : copyBytes (List.replicate 32 0) (p.take 32) = p.take 32 :=
    copyBytes_full _ _ (by simp [hl])
  unfold GetCompressPubKey
  rw [if_neg (by simp [h])]
  split_ifs with hpar
  · have hrule : sizeRule (0x02 :: p.take 32) := by
      left
      exact ⟨by simp [hl], Or.inl (by simp)⟩
    simp only [set_zero_replicate 32, List.take_succ_cons, List.take_zero,
      List.drop_succ_cons, List.drop_zero, hc, List.singleton_append,
      SetPubKeyData_of_rule _ _ hrule]
  · have hrule : sizeRule (0x03 :: p.take 32) := by
      left
      exact ⟨by simp [hl], Or.inr (by simp)⟩
    simp only [set_zero_replicate 32, List.take_succ_cons, List.take_zero,
      List.drop_succ_cons, List.drop_zero, hc, List.singleton_append,
      SetPubKeyData_of_rule _ _ hrule]

/-- C15: `GetCompressPubKey p` returns an error exactly when `len p` is not 64;
when it is 64 the key returned holds exactly 33 bytes, the byte `0x02` if `p[63]`
is even and `0x03` if it is odd, followed by `p[0..31]`, and the key satisfies the
size rule, so `GetPubKeyData` on it succeeds. -/
theorem C15_compress (p : List Byte) :
    ((GetCompressPubKey p).2 ≠ none ↔ p.length ≠ 64) ∧
    (p.length ≠ 64 → GetCompressPubKey p = (none, some Err.invalidSize)) ∧
    (p.length = 64 → ∃ k : PubKey, GetCompressPubKey p = (some k, none) ∧
      k.data = (if (p.getD 63 0).val % 2 = 0 then 0x02 else 0x03) :: p.take 32 ∧
      k.data.length = 33 ∧ sizeRule k.data ∧ k.GetPubKeyData = (k.data, none)) := by
  have hlen : p.length = 64 → ((if (p.getD 63 0).val % 2 = 0 then (0x02 : Byte) else 0x03) ::
      p.take 32).length = 33 := by
    intro h
    simp only [List.length_cons, List.length_take]
    omega
  have hrule : p.length = 64 →
      sizeRule ((if (p.getD 63 0).val % 2 = 0 then (0x02 : Byte) else 0x03) :: p.take 32) := by
    intro h
    left
    refine ⟨hlen h, ?_⟩
    split_ifs
    · exact Or.inl (by simp)
    · exact Or.inr (by simp)
  refine ⟨?_, ?_, ?_⟩
  · by_cases h : p.length = 64
    · simp [GetCompressPubKey_eq p h, h]
    · simp [GetCompressPubKey, h]
  · intro h
    simp [GetCompressPubKey, h]
  · intro h
    exact ⟨_, GetCompressPubKey_eq p h, rfl, hlen h, hrule h,
      GetPubKeyData_of_rule _ (hrule h)⟩

/-- C15 at `samplePoint`, whose last byte is odd, and at a point of 63 bytes. -/
theorem C15_compress_witness :
    (∃ k : PubKey, GetCompressPubKey samplePoint = (some k, none) ∧
      k.data = 0x03 :: List.replicate 32 0x11) ∧
    GetCompressPubKey (List.replicate 63 0x00) = (none, some Err.invalidSize) := by
  refine ⟨?_, (C15_compress (List.replicate 63 0x00)).2.1 (by decide)⟩
  obtain ⟨k, hk, hd, -⟩ := (C15_compress samplePoint).2.2 (by decide)
  exact ⟨k, hk, by rw [hd]; decide⟩

/-- C16: `GetUnCompressPubKey p` returns an error exactly when `len p` is not 64;
when it is 64 the key returned holds exactly the 65 bytes `0x04` followed by `p`,
and the key satisfies the size rule, so `GetPubKeyData` on it succeeds and returns
`0x04` followed by `p`. -/
theorem C16_uncompress (p : List Byte) :
    ((GetUnCompressPubKey p).2 ≠ none ↔ p.length ≠ 64) ∧
    (p.length ≠ 64 → GetUnCompressPubKey p = (none, some Err.invalidSize)) ∧
    (p.length = 64 → ∃ k : PubKey, GetUnCompressPubKey p = (some k, none) ∧
      k.data = 0x04 :: p ∧ k.data.length = 65 ∧ sizeRule k.data ∧
      k.GetPubKeyData = (0x04 :: p, none)) := by
  have hrule : p.length = 64 → sizeRule (0x04 :: p) := by
    intro h
    right
    exact ⟨by simp [h], Or.inl (by simp)⟩
  refine ⟨?_, ?_, ?_⟩
  · by_cases h : p.length = 64
    · simp [GetUnCompressPubKey_eq p h, h]
    · simp [GetUnCompressPubKey, h]
  · intro h
    simp [GetUnCompressPubKey, h]
  · intro h
    exact ⟨_, GetUnCompressPubKey_eq p h, rfl, by simp [h], hrule h,
      GetPubKeyData_of_rule _ (hrule h)⟩

/-- C16 at `samplePoint` and at a point of 65 bytes. -/
theorem C16_uncompress_witness :
    (∃ k : PubKey, GetUnCompressPubKey samplePoint = (some k, none) ∧
      k.GetPubKeyData = (0x04 :: samplePoint, none)) ∧
    GetUnCompressPubKey (List.replicate 65 0x00) = (none, some Err.invalidSize) := by
  refine ⟨?_, (C16_uncompress (List.replicate 65 0x00)).2.1 (by decide)⟩
  obtain ⟨k, hk, -, -, -, hg⟩ := (C16_uncompress samplePoint).2.2 (by decide)
  exact ⟨k, hk, hg⟩

/-- C17: for every 64-byte point `p`, the bytes of `GetUnCompressPubKey p` without
their first byte are 64 bytes on which `GetCompressPubKey` succeeds and gives the
same key as `GetCompressPubKey p`: its first byte is `0x02` or `0x03` after the
parity of `p[63]` and its last 32 bytes are `p[0..31]`. -/
theorem C17_compress_uncompress_duality (p : List Byte) (h : p.length = 64) :
    ∃ u k : PubKey, GetUnCompressPubKey p = (some u, none) ∧
      (u.data.drop 1).length = 64 ∧
      GetCompressPubKey (u.data.drop 1) = (some k, none) ∧
      GetCompressPubKey p = (some k, none) ∧
      k.data.head? = some (if (p.getD 63 0).val % 2 = 0 then 0x02 else 0x03) ∧
      k.data.drop 1 = p.take 32 := by
  refine ⟨⟨0x04 :: p⟩, _, GetUnCompressPubKey_eq p h, ?_, ?_, GetCompressPubKey_eq p h,
    rfl, rfl⟩
  · simpa using h
  · simp only [List.drop_succ_cons, List.drop_zero]
    exact GetCompressPubKey_eq p h

/-- C17 at `samplePoint`. -/
theorem C17_compress_uncompress_duality_witness :
    samplePoint.length = 64 ∧
    ∃ u k : PubKey, GetUnCompressPubKey samplePoint = (some u, none) ∧
      (u.data.drop 1).length = 64 ∧
      GetCompressPubKey (u.data.drop 1) = (some k, none) ∧
      GetCompressPubKey samplePoint = (some k, none) ∧
      k.data.head? = some (if (samplePoint.getD 63 0).val % 2 = 0 then 0x02 else 0x03) ∧
      k.data.drop 1 = samplePoint.take 32 :=
  ⟨by decide, C17_compress_uncompress_duality samplePoint (by decide)⟩

/-! ## The presentation view: lemmas -/

theorem GetHex_eq_zeros_iff (h : Uint256) :
    h.GetHex = List.replicate 64 '0' ↔ h.val = List.replicate 32 0 := by
  have hz : hexPairs (List.replicate 64 '0') = List.replicate 32 0 := by decide
  have hg : h.GetHex = hexOfBytes h.val.reverse := rfl
  constructor
  · intro e
    rw [hg] at e
    have e2 := congrArg hexPairs e
    rw [hexPairs_hexOfBytes, hz] at e2
    have e3 := congrArg List.reverse e2
    rw [List.reverse_reverse, List.reverse_replicate] at e3
    exact e3
  · intro e
    rw [hg, e]
    decide

theorem vinPrintAble_Hash (v : TxIn) :
    (vinPrintAble v).PrevOut.Hash =
      if v.PrevOut.Hash.val = List.replicate 32 0 then []
      else hexOfBytes v.PrevOut.Hash.val.reverse := by
  by_cases hz : v.PrevOut.Hash.val = List.replicate 32 0
  · have := (GetHex_eq_zeros_iff v.PrevOut.Hash).mpr hz
    simp [vinPrintAble, this, hz]
  · have : ¬ v.PrevOut.Hash.GetHex = List.replicate 64 '0' :=
      fun e => hz ((GetHex_eq_zeros_iff v.PrevOut.Hash).mp e)
    simp only [vinPrintAble, if_neg this, if_neg hz]
    rfl

theorem voutPrintAble_ok {ScriptType : Type} (api : ScriptApi ScriptType) (o : TxOut)
    (h : destinationOk api o) :
    (voutPrintAble api o).2 = none ∧ (voutPrintAble api o).1.Value = o.Value := by
  unfold destinationOk at h
  unfold voutPrintAble
  rcases hx : api.ExtractDestination o.ScriptPubKey with ⟨isSucc, scriptType, addresses⟩
  rw [hx] at h
  dsimp only at h ⊢
  cases isSucc with
  | false => exact ⟨rfl, rfl⟩
  | true =>
    cases hs : api.IsSingleAddress scriptType with
    | false =>
      cases hm : api.IsMultiAddress scriptType with
      | false => exact ⟨by simp, by simp⟩
      | true => exact ⟨by simp, by simp⟩
    | true =>
      cases addresses with
      | nil => exact absurd rfl (h rfl hs)
      | cons a as => exact ⟨by simp, by simp⟩

theorem voutPrintAbleLoop_ok {ScriptType : Type} (api : ScriptApi ScriptType)
    (vout : List TxOut) (h : ∀ o ∈ vout, destinationOk api o) :
    (voutPrintAbleLoop api vout).2 = none ∧
      (voutPrintAbleLoop api vout).1.map (fun q => q.Value) =
        vout.map (fun o => o.Value) := by
  induction vout with
  | nil => exact ⟨rfl, rfl⟩
  | cons o os ih =>
    obtain ⟨hq, hv⟩ := voutPrintAble_ok api o (h o (List.mem_cons_self _ _))
    obtain ⟨hqs, hvs⟩ := ih (fun u hu => h u (List.mem_cons_of_mem _ hu))
    rcases hx : voutPrintAble api o with ⟨q, e⟩
    rw [hx] at hq hv
    rcases hy : voutPrintAbleLoop api os with ⟨qs, e2⟩
    rw [hy] at hqs hvs
    dsimp only at hq hv hqs hvs
    subst hq
    subst hqs
    simp only [voutPrintAbleLoop, hx, hy, List.map_cons, hv, hvs, and_self]

/-! ## The claims on the presentation view and on decoding -/

/-- C18: for every transaction `t` whose outputs the classification collaborator
answers within its contract, `GetTrxPrintAble t` returns a view with exactly
`len t.Vin` input entries and `len t.Vout` output entries in the same order, with
Version, LockTime, the index and sequence of each input and the value of each
output unchanged; the hash rendered for an input is the empty string when the
previous-output hash is 32 zero bytes and otherwise its byte-reversed hex. -/
theorem C18_presentation_view {ScriptType : Type} (api : ScriptApi ScriptType)
    (t : Transaction) (hapi : ∀ o ∈ t.Vout, destinationOk api o) :
    ∃ p, t.GetTrxPrintAble api = (p, none) ∧
      p.Vin.length = t.Vin.length ∧ p.Vout.length = t.Vout.length ∧
      p.Version = t.Version ∧ p.LockTime = t.LockTime ∧
      p.Vin.map (fun v => (v.PrevOut.N, v.Sequence)) =
        t.Vin.map (fun v => (v.PrevOut.N, v.Sequence)) ∧
      p.Vout.map (fun q => q.Value) = t.Vout.map (fun o => o.Value) ∧
      p.Vin.map (fun v => v.PrevOut.Hash) =
        t.Vin.map (fun v => if v.PrevOut.Hash.val = List.replicate 32 0 then []
          else hexOfBytes v.PrevOut.Hash.val.reverse) := by
  obtain ⟨hqs, hvs⟩ := voutPrintAbleLoop_ok api t.Vout hapi
  rcases hy : voutPrintAbleLoop api t.Vout with ⟨qs, e⟩
  rw [hy] at hqs hvs
  dsimp only at hqs hvs
  subst hqs
  refine ⟨{ Vin := t.Vin.map vinPrintAble, Vout := qs, Version := t.Version,
            LockTime := t.LockTime },
    by simp only [Transaction.GetTrxPrintAble, hy], ?_, ?_, rfl, rfl, ?_, hvs, ?_⟩
  · simp
  · have := congrArg List.length hvs
    simpa using this
  · simp [List.map_map, Function.comp_def, vinPrintAble]
  · simp only [List.map_map, Function.comp_def, vinPrintAble_Hash]

/-- C18 at the coinbase-shaped transaction: its input renders with the empty
string as previous-output hash. -/
theorem C18_presentation_view_witness :
    ∃ p, coinbaseTx.GetTrxPrintAble singleDestinationApi = (p, none) ∧
      p.Vin.map (fun v => v.PrevOut.Hash) = [[]] ∧
      p.Vout.map (fun q => q.Value) = [5000000000] := by
  obtain ⟨p, hp, -, -, -, -, -, hv, hh⟩ :=
    C18_presentation_view singleDestinationApi coinbaseTx (by
      intro o _ _ _
      simp [singleDestinationApi])
  exact ⟨p, hp, by rw [hh]; decide, by rw [hv]; decide⟩

/-- C19, as stated, fails: with the marker and flag byte `0x02` and nothing after
it, `UnPack` returns a short-read error, not the unknown-transaction-option error;
with an input list and an output list after the flag byte `0x02`, `UnPack` reads
both lists: Vin and Vout hold them when the unknown-transaction-option error is
returned. -/
theorem C19_flag_two_counterexample :
    (Transaction.UnPack default flagTwoOnlyStream).2.1 = some Err.shortRead ∧
    Transaction.UnPack default flagTwoListsStream =
      ({ Vin := coinbaseTx.Vin, Vout := coinbaseTx.Vout, Version := 1, LockTime := 0 },
        some Err.unknownOption, []) ∧
    coinbaseTx.Vin ≠ [] ∧ coinbaseTx.Vout ≠ [] := by
  decide

/-- C19, amended: on a stream whose first input count decodes to 0 and whose flag
byte has bit 0 clear: with flag `0x00`, `UnPack` reads no list after the flag, Vin
is empty and Vout is not assigned, and the next four bytes, when present, are
taken as lockTime and decoding succeeds; with a non-zero flag, `UnPack` reads an
input list and an output list after the flag and never succeeds: it returns the
unknown-transaction-option error when both lists decode, and the error of the
list that fails otherwise. -/
theorem C19_flag_bit0_clear (t0 : Transaction) (ver r1 rest : List Byte) (f : Byte)
    (hver : ver.length = 4) (hcount : UnPackCompactSize r1 = (0, none, f :: rest))
    (hbit : f.val &&& 1 = 0) :
    (f.val = 0 → ∀ lt tail : List Byte, lt.length = 4 → rest = lt ++ tail →
      t0.UnPack (ver ++ r1) =
        ({ Vin := [], Vout := t0.Vout, Version := toSigned 32 (leValue ver),
           LockTime := leValue lt }, none, tail)) ∧
    (f.val ≠ 0 →
      (t0.UnPack (ver ++ r1)).2.1 ≠ none ∧
      (∀ vin vout r2 r3, unpackVin rest = (vin, none, r2) →
        unpackVout r2 = (vout, none, r3) →
        t0.UnPack (ver ++ r1) =
          ({ Vin := vin, Vout := vout, Version := toSigned 32 (leValue ver),
             LockTime := t0.LockTime }, some Err.unknownOption, r3)) ∧
      (∀ vin e r2, unpackVin rest = (vin, some e, r2) →
        t0.UnPack (ver ++ r1) =
          ({ Vin := [], Vout := t0.Vout, Version := toSigned 32 (leValue ver),
             LockTime := t0.LockTime }, some e, r2)) ∧
      (∀ vin vout e r2 r3, unpackVin rest = (vin, none, r2) →
        unpackVout r2 = (vout, some e, r3) →
        t0.UnPack (ver ++ r1) =
          ({ Vin := vin, Vout := t0.Vout, Version := toSigned 32 (leValue ver),
             LockTime := t0.LockTime }, some e, r3))) := by
  have hvin := unpackVin_of_count_zero r1 (f :: rest) hcount
  constructor
  · intro hf lt tail hlt hrest
    subst hrest
    have hl : UnPackUint32 (lt ++ tail) = (leValue lt, none, tail) := readLE_append lt tail 4 hlt
    simp [Transaction.UnPack, UnPackInt32_append _ _ hver, hvin, UnPackUint8_cons, hf,
      Transaction.unpackTail, Transaction.unpackEnd, hl]
  · intro hf
    have hstep : t0.UnPack (ver ++ r1) =
        (match unpackVin rest with
          | (_, some err, r) =>
            ({ Vin := [], Vout := t0.Vout, Version := toSigned 32 (leValue ver),
               LockTime := t0.LockTime }, some err, r)
          | (vin, none, r) =>
            match unpackVout r with
            | (_, some err, r) =>
              ({ Vin := vin, Vout := t0.Vout, Version := toSigned 32 (leValue ver),
                 LockTime := t0.LockTime }, some err, r)
            | (vout, none, r) =>
              ({ Vin := vin, Vout := vout, Version := toSigned 32 (leValue ver),
                 LockTime := t0.LockTime }, some Err.unknownOption, r)) := by
      simp only [Transaction.UnPack, UnPackInt32_append _ _ hver, hvin, List.length_nil,
        if_true, UnPackUint8_cons, ne_eq, hf, not_false_eq_true, Transaction.unpackTail,
        hbit, zero_ne_one, if_false, unpackEnd_of_ne_zero _ _ _ hf]
    refine ⟨?_, ?_, ?_, ?_⟩
    · rw [hstep]
      rcases h1 : unpackVin rest with ⟨vin, _ | e, r2⟩
      · dsimp only
        rcases h2 : unpackVout r2 with ⟨vout, _ | e, r3⟩ <;> simp
      · simp
    · intro vin vout r2 r3 h1 h2
      rw [hstep, h1]
      dsimp only
      rw [h2]
    · intro vin e r2 h1
      rw [hstep, h1]
    · intro vin vout e r2 r3 h1 h2
      rw [hstep, h1]
      dsimp only
      rw [h2]

/-- C19, amended, at a stream with the marker and flag byte `0x00` followed by
four bytes of lockTime, and at the stream that ends after flag byte `0x02`. -/
theorem C19_flag_bit0_clear_witness :
    segwitTx.UnPack ([0x01, 0x00, 0x00, 0x00] ++ [0x00, 0x00, 0x09, 0x00, 0x00, 0x00]) =
      ({ Vin := [], Vout := segwitTx.Vout, Version := 1, LockTime := 9 }, none, []) ∧
    (segwitTx.UnPack ([0x01, 0x00, 0x00, 0x00] ++ [0x00, 0x02])).2.1 ≠ none ∧
    segwitTx.UnPack ([0x01, 0x00, 0x00, 0x00] ++ [0x00, 0x02]) =
      ({ Vin := [], Vout := segwitTx.Vout, Version := 1, LockTime := segwitTx.LockTime },
        some Err.shortRead, []) := by
  have h0 := (C19_flag_bit0_clear segwitTx [0x01, 0x00, 0x00, 0x00]
    [0x00, 0x00, 0x09, 0x00, 0x00, 0x00] [0x09, 0x00, 0x00, 0x00] 0x00 (by decide)
    (by decide) (by decide)).1 (by decide) [0x09, 0x00, 0x00, 0x00] [] (by decide)
    (by decide)
  have h2 := (C19_flag_bit0_clear segwitTx [0x01, 0x00, 0x00, 0x00] [0x00, 0x02] [] 0x02
    (by decide) (by decide) (by decide)).2 (by decide)
  refine ⟨?_, h2.1, ?_⟩
  · rw [h0]
    decide
  · rw [h2.2.2.1 [] Err.shortRead [] (by decide)]
    decide

/-- C20: for every transaction `t` with at least one input (its fields within the
ranges of their Go types), every byte sequence `rest` and every receiver,
`UnPack` on a reader holding the bytes of `Pack t` followed by `rest` succeeds,
yields exactly `t` (version, lockTime, every input with its witness stack, every
output, in order) and leaves exactly `rest` unread; so a second transaction
packed right after `t` is decoded by the next `UnPack`. -/
theorem C20_decode_consumes_encoding (t0 t t2 : Transaction) (rest : List Byte)
    (hwf : t.WF) (hne : t.Vin ≠ []) :
    (t.Pack []).1 = none ∧
    t0.UnPack ((t.Pack []).2 ++ rest) = (t, none, rest) ∧
    (t2.WF → t2.Vin ≠ [] →
      t0.UnPack ((t.Pack []).2 ++ ((t2.Pack []).2 ++ rest)) =
        (t, none, (t2.Pack []).2 ++ rest) ∧
      t0.UnPack ((t2.Pack []).2 ++ rest) = (t2, none, rest)) := by
  have hp := (Pack_ne_nil t).1
  refine ⟨by rw [hp], UnPack_Pack t0 t _ rest hwf hne hp, ?_⟩
  intro hwf2 hne2
  exact ⟨UnPack_Pack t0 t _ _ hwf hne hp,
    UnPack_Pack t0 t2 _ rest hwf2 hne2 (Pack_ne_nil t2).1⟩

/-- C20 at `segwitTx` followed by the coinbase-shaped transaction and two more
bytes. -/
theorem C20_decode_consumes_encoding_witness :
    Transaction.UnPack default
        ((segwitTx.Pack []).2 ++ ((coinbaseTx.Pack []).2 ++ [0xaa, 0xbb])) =
      (segwitTx, none, (coinbaseTx.Pack []).2 ++ [0xaa, 0xbb]) ∧
    Transaction.UnPack default ((coinbaseTx.Pack []).2 ++ [0xaa, 0xbb]) =
      (coinbaseTx, none, [0xaa, 0xbb]) :=
  (C20_decode_consumes_encoding default segwitTx coinbaseTx [0xaa, 0xbb] (by decide)
    (by decide)).2.2 (by decide) (by decide)

end BitcoinLib
